import Mathlib

/-!
Verification development for the SuperSelector query-language interpreter.

The definitions below are a shallow embedding of the TypeScript source:
the tokenizer (src/parser/tokenizer.ts), the recursive-descent parser
(src/parser/parser.ts), the command registry (src/commands/registry.ts),
the built-in commands (src/commands/built-in.ts), the execution engine
(src/core/execution-engine.ts) and the result cache (src/core/cache.ts).

Modelling conventions:
- JavaScript strings are `List Char` (`JStr`); machine text offsets and the
  positional fields of tokens are not modelled (no claim mentions them).
- JavaScript numbers appearing in the interpreter are modelled as `Rat`
  (argument coercion) or `Int` (indices, repetition counts); exotic numeric
  syntax (exponents, hex, Infinity) and float rounding are outside the model.
- DOM nodes are host objects: no modelled `Value` is an Element, so the
  `instanceof Element` tests of the source are uniformly false here.
- The JavaScript prototype chain is not modelled: the `in` operator is
  modelled on own properties (plus `length`/indices for arrays).
- Scanner and parser loops take an explicit fuel argument (the source loops
  always consume at least one character/token, so `length + 1` fuel is
  always sufficient); this keeps every definition structurally recursive
  and executable.
- Error messages are reproduced from the source with quote punctuation
  elided.
-/

set_option maxHeartbeats 1000000

namespace SS

abbrev JStr := List Char

def strL (s : String) : JStr := s.toList

/-! ### Character classes (tokenizer.ts `isWhitespace` / `isDigit` / `isAlpha` / `isAlphaNumeric`) -/

def isWsChar (c : Char) : Bool :=
  c == ' ' || c == '\t' || c == '\n' || c == '\r' || c == '\x0b' || c == '\x0c'

def isDigitChar (c : Char) : Bool := c.isDigit

def isAlphaChar (c : Char) : Bool := c.isAlpha

def isAlphaNumChar (c : Char) : Bool := c.isAlphanum

/-- Characters allowed after the first character of an identifier word
(`isAlphaNumeric || _ || -` in `tokenizeIdentifier`). -/
def isWordTailChar (c : Char) : Bool :=
  c.isAlphanum || c == '_' || c == '-'

/-- The character class `[.#\s>+~[\]:]` of `looksLikeCssSelector` rule 1. -/
def isCssSpecialChar (c : Char) : Bool :=
  c == '.' || c == '#' || isWsChar c || c == '>' || c == '+' || c == '~' ||
  c == '[' || c == ']' || c == ':'

/-- The regular expression `^[a-zA-Z_][\w-]*$` of `looksLikeCssSelector` rule 2
(`\w` is alphanumeric or underscore; the class also allows `-`). -/
def isBareWord (s : JStr) : Bool :=
  match s with
  | [] => false
  | c :: rest => (c.isAlpha || c == '_') && rest.all isWordTailChar

/-- JavaScript `String.prototype.trim` restricted to the whitespace above. -/
def jsTrim (s : JStr) : JStr :=
  ((s.dropWhile isWsChar).reverse.dropWhile isWsChar).reverse

/-! ### Tokens -/

inductive TokenType where
  | CSS_SELECTOR | PIPE | FUNCTION_NAME | OPEN_PAREN | CLOSE_PAREN
  | OPEN_BRACKET | CLOSE_BRACKET | STRING | NUMBER | COMMA | PROPERTY | EOF
deriving DecidableEq, Repr

structure Token where
  type : TokenType
  value : JStr
deriving DecidableEq, Repr

/-! ### Tokenizer (tokenizer.ts) -/

/-- Escape mapping of `tokenizeString`: `\n \t \r`, anything else maps to the
escaped character itself (which also covers `\\ \" \'`). -/
def escapeChar (c : Char) : Char :=
  if c == 'n' then '\n'
  else if c == 't' then '\t'
  else if c == 'r' then '\r'
  else c

/-- The scan loop of `tokenizeString`: consumes up to the closing quote,
returning the unquoted value and the remaining input; errors when the input
ends before the closing quote (also when a lone backslash is the last
character, in which case the source appends it, runs off the end and then
reports the unterminated string). -/
def tokenizeStringBody (quote : Char) : JStr → JStr → Except JStr (JStr × JStr)
  | [], _ => .error (strL "Unterminated string")
  | c :: rest, acc =>
    if c == quote then .ok (acc.reverse, rest)
    else if c == '\\' then
      match rest with
      | [] => .error (strL "Unterminated string")
      | e :: rest2 => tokenizeStringBody quote rest2 (escapeChar e :: acc)
    else tokenizeStringBody quote rest (c :: acc)

/-- `tokenizeNumber`: optional leading minus, then digits and dots. -/
def tokenizeNumber (cs : JStr) : JStr × JStr :=
  match cs with
  | '-' :: rest =>
    ('-' :: rest.takeWhile (fun c => isDigitChar c || c == '.'),
     rest.dropWhile (fun c => isDigitChar c || c == '.'))
  | _ =>
    (cs.takeWhile (fun c => isDigitChar c || c == '.'),
     cs.dropWhile (fun c => isDigitChar c || c == '.'))

/-- `looksLikeCssSelector`: reads the whole segment up to the next pipe from
the identifier start, trims it, and classifies.  `tokens` is the list of
tokens emitted so far (`this.tokens`); rule 2 classifies a bare word as a CSS
selector exactly when no token has been emitted yet. -/
def looksLikeCssSelector (cs : JStr) (tokens : List Token) : Bool :=
  let segment := jsTrim (cs.takeWhile (fun d => !(d == '|')))
  if segment.isEmpty then false
  else if segment.any isCssSpecialChar then true
  else if isBareWord segment then tokens.isEmpty
  else false

/-- `tokenizeIdentifier`: reads the first word, then peeks for `(` (function
name), otherwise classifies via `looksLikeCssSelector`, consuming the whole
segment for a CSS selector and just the word for a property.  Returns the
emitted token and the remaining input.  The caller guarantees `cs` starts
with an identifier-start character. -/
def tokenizeIdentifier (cs : JStr) (tokens : List Token) : Token × JStr :=
  match cs with
  | [] => (⟨.PROPERTY, []⟩, [])
  | c :: rest =>
    let word := c :: rest.takeWhile isWordTailChar
    let rest2 := rest.dropWhile isWordTailChar
    let afterWs := rest2.dropWhile isWsChar
    if (match afterWs with | '(' :: _ => true | _ => false) then
      (⟨.FUNCTION_NAME, word⟩, rest2)
    else if looksLikeCssSelector cs tokens then
      (⟨.CSS_SELECTOR, jsTrim (cs.takeWhile (fun d => !(d == '|')))⟩,
       cs.dropWhile (fun d => !(d == '|')))
    else
      (⟨.PROPERTY, word⟩, rest2)

/-- Main scan loop of `tokenize`.  Each iteration skips whitespace and
consumes at least one character, so fuel `input.length + 1` never runs out;
the fuel-exhaustion branch is unreachable for the fuel `tokenize` supplies. -/
def tokenizeLoop : Nat → JStr → List Token → Except JStr (List Token)
  | 0, _, _ => .error (strL "Fuel exhausted")
  | Nat.succ n, cs, ts =>
    let cs1 := cs.dropWhile isWsChar
    match cs1 with
    | [] => .ok (ts ++ [⟨.EOF, []⟩])
    | c :: rest =>
      if c == '|' then tokenizeLoop n rest (ts ++ [⟨.PIPE, [c]⟩])
      else if c == '(' then tokenizeLoop n rest (ts ++ [⟨.OPEN_PAREN, [c]⟩])
      else if c == ')' then tokenizeLoop n rest (ts ++ [⟨.CLOSE_PAREN, [c]⟩])
      else if c == '[' then tokenizeLoop n rest (ts ++ [⟨.OPEN_BRACKET, [c]⟩])
      else if c == ']' then tokenizeLoop n rest (ts ++ [⟨.CLOSE_BRACKET, [c]⟩])
      else if c == ',' then tokenizeLoop n rest (ts ++ [⟨.COMMA, [c]⟩])
      else if c == '"' || c == '\'' then
        match tokenizeStringBody c rest [] with
        | .error e => .error e
        | .ok (val, rest2) => tokenizeLoop n rest2 (ts ++ [⟨.STRING, val⟩])
      else if isDigitChar c ||
              (c == '-' && (match rest with | d :: _ => isDigitChar d | [] => false)) then
        let p := tokenizeNumber (c :: rest)
        tokenizeLoop n p.2 (ts ++ [⟨.NUMBER, p.1⟩])
      else if c.isAlpha || c == '_' || c == '-' || c == '.' || c == '#' then
        let p := tokenizeIdentifier (c :: rest) ts
        tokenizeLoop n p.2 (ts ++ [p.1])
      else .error (strL "Unexpected character " ++ [c])

/-- `Tokenizer.tokenize` (the constructor trims the input first). -/
def tokenize (input : JStr) : Except JStr (List Token) :=
  let s := jsTrim input
  tokenizeLoop (s.length + 1) s []

/-! ### Commands (the AST of parser.ts) -/

/-- JavaScript `parseInt(s, 10)`: skip leading whitespace, optional sign,
leading decimal digits; `none` models `NaN`. -/
def digitsToNat (ds : JStr) : Nat :=
  ds.foldl (fun acc c => acc * 10 + (c.toNat - '0'.toNat)) 0

def parseIntJS (s : JStr) : Option Int :=
  let t := s.dropWhile isWsChar
  let core : JStr → Option Nat := fun u =>
    let ds := u.takeWhile isDigitChar
    if ds.isEmpty then none else some (digitsToNat ds)
  match t with
  | '-' :: u => (core u).map (fun n => -(n : Int))
  | '+' :: u => (core u).map (fun n => (n : Int))
  | _ => (core t).map (fun n => (n : Int))

inductive Command where
  | cssSelector (selector : JStr)
  | function (name : JStr) (args : List JStr)
  | property (name : JStr)
  | arrayAccess (index : Int)
deriving DecidableEq, Repr

/-- `command.name` as stored by the parser (`css-selector` and
`array-access` are fixed names). -/
def Command.name : Command → JStr
  | .cssSelector _ => strL "css-selector"
  | .function n _ => n
  | .property n => n
  | .arrayAccess _ => strL "array-access"

structure ParseResult where
  commands : List Command
  isValid : Bool
  errors : List JStr
deriving DecidableEq, Repr

/-! ### Parser (parser.ts), position-free: functions thread the remaining
token list.  `peek()` past the end of the token array is a JavaScript
`TypeError`; it is modelled as an error value (it is caught by `parse`
exactly like the parser's own thrown syntax errors). -/

def tokMatch (ts : List Token) (ty : TokenType) : Bool :=
  match ts with
  | t :: _ => t.type == ty
  | [] => false

def tokAtEnd (ts : List Token) : Bool :=
  match ts with
  | [] => true
  | t :: _ => t.type == .EOF

/-- `parseArgument`: a STRING, NUMBER or PROPERTY token taken as-is. -/
def parseArgument (ts : List Token) : Except JStr (JStr × List Token) :=
  match ts with
  | t :: rest =>
    if t.type == .STRING || t.type == .NUMBER then .ok (t.value, rest)
    else if t.type == .PROPERTY then .ok (t.value, rest)
    else .error (strL "Expected string, number, or identifier as argument")
  | [] => .error (strL "Unexpected end of token stream")

/-- The argument loop of `parseFunction`: arguments separated by commas until
the closing parenthesis, which it consumes. -/
def parseFnArgs : Nat → List Token → List JStr → Except JStr (List JStr × List Token)
  | 0, _, _ => .error (strL "Fuel exhausted")
  | Nat.succ n, ts, acc =>
    if tokMatch ts .CLOSE_PAREN then .ok (acc, ts.tail)
    else if tokAtEnd ts then .error (strL "Expected close paren to close function call")
    else
      match parseArgument ts with
      | .error e => .error e
      | .ok (arg, ts1) =>
        if tokMatch ts1 .COMMA then parseFnArgs n ts1.tail (acc ++ [arg])
        else if tokMatch ts1 .CLOSE_PAREN then parseFnArgs n ts1 (acc ++ [arg])
        else .error (strL "Expected comma or close paren in function arguments")

/-- `parseCommand`: one pipeline stage. -/
def parseCommandTok (n : Nat) (ts : List Token) : Except JStr (Command × List Token) :=
  match ts with
  | [] => .error (strL "Unexpected end of token stream")
  | t :: rest =>
    match t.type with
    | .CSS_SELECTOR => .ok (.cssSelector t.value, rest)
    | .FUNCTION_NAME =>
      if tokMatch rest .OPEN_PAREN then
        match parseFnArgs n rest.tail [] with
        | .error e => .error e
        | .ok (args, ts2) => .ok (.function t.value args, ts2)
      else .error (strL "Expected open paren after function name")
    | .PROPERTY => .ok (.property t.value, rest)
    | .OPEN_BRACKET =>
      match rest with
      | t2 :: rest2 =>
        if t2.type == .NUMBER then
          match parseIntJS t2.value with
          | none => .error (strL "Invalid number in array access")
          | some i =>
            if tokMatch rest2 .CLOSE_BRACKET then .ok (.arrayAccess i, rest2.tail)
            else .error (strL "Expected close bracket to close array access")
        else .error (strL "Expected number in array access")
      | [] => .error (strL "Expected number in array access")
    | _ => .error (strL "Unexpected token")

/-- `parseCommands`: stages separated by pipes, until the EOF token. -/
def parseCommandsTok : Nat → List Token → Except JStr (List Command)
  | 0, _ => .error (strL "Fuel exhausted")
  | Nat.succ n, ts =>
    if tokAtEnd ts then .ok []
    else
      match parseCommandTok n ts with
      | .error e => .error e
      | .ok (cmd, ts1) =>
        let ts2 := if tokMatch ts1 .PIPE then ts1.tail else ts1
        match parseCommandsTok n ts2 with
        | .error e => .error e
        | .ok cmds => .ok (cmd :: cmds)

/-- `Parser.parse`: never throws; lexical and syntax errors are caught and
reported as `isValid = false` with a single message. -/
def parse (input : JStr) : ParseResult :=
  match tokenize input with
  | .error e => ⟨[], false, [e]⟩
  | .ok ts =>
    match parseCommandsTok (ts.length + 1) ts with
    | .error e => ⟨[], false, [e]⟩
    | .ok cmds => ⟨cmds, true, []⟩

/-! ### Runtime values

A JavaScript value as threaded through the execution engine.  `vFun` models
a function-valued member (a native method); its arguments are the coerced
primitives produced by `executeNativeMethod` and it is total (host methods
that throw are outside the model). -/

inductive Prim where
  | pBool (b : Bool)
  | pNum (q : Rat)
  | pStr (s : JStr)
deriving DecidableEq, Repr

inductive Value where
  | vNull
  | vUndefined
  | vBool (b : Bool)
  | vNum (q : Rat)
  | vStr (s : JStr)
  | vArr (items : List Value)
  | vObj (props : List (JStr × Value))
  | vFun (f : List Prim → Value)

def isNull : Value → Bool
  | .vNull => true
  | _ => false

def isUndef : Value → Bool
  | .vUndefined => true
  | _ => false

/-- JavaScript truthiness. -/
def truthy : Value → Bool
  | .vNull => false
  | .vUndefined => false
  | .vBool b => b
  | .vNum q => !(q == 0)
  | .vStr s => !s.isEmpty
  | .vArr _ => true
  | .vObj _ => true
  | .vFun _ => true

/-- `typeof v === "object"` (true for null, arrays and plain objects). -/
def isObjType : Value → Bool
  | .vNull => true
  | .vArr _ => true
  | .vObj _ => true
  | _ => false

def isFunType : Value → Bool
  | .vFun _ => true
  | _ => false

/-- The `typeof` string, used in error messages. -/
def typeofStr : Value → JStr
  | .vNull => strL "object"
  | .vUndefined => strL "undefined"
  | .vBool _ => strL "boolean"
  | .vNum _ => strL "number"
  | .vStr _ => strL "string"
  | .vArr _ => strL "object"
  | .vObj _ => strL "object"
  | .vFun _ => strL "function"

def lookupProp (props : List (JStr × Value)) (name : JStr) : Option Value :=
  (props.find? (fun p => p.1 == name)).map (fun p => p.2)

/-- The `in` operator on own properties (arrays expose `length` and their
index keys; the prototype chain is not modelled). -/
def hasPropJS : Value → JStr → Bool
  | .vObj props, name => (lookupProp props name).isSome
  | .vArr items, name =>
    name == strL "length" ||
    (match parseIntJS name with
     | some i => 0 ≤ i && i < (items.length : Int) && name == strL (toString i)
     | none => false)
  | _, _ => false

/-- Property read `v[name]` (only used under `hasPropJS`). -/
def getPropJS : Value → JStr → Value
  | .vObj props, name => (lookupProp props name).getD .vUndefined
  | .vArr items, name =>
    if name == strL "length" then .vNum (items.length : Rat)
    else
      (match parseIntJS name with
       | some i => items.getD i.toNat .vUndefined
       | none => .vUndefined)
  | _, _ => .vUndefined

/-! ### Errors (core/errors.ts) -/

inductive ErrCode where
  | PARSE_ERROR | EXECUTION_ERROR | VALIDATION_ERROR | TIMEOUT_ERROR | PLUGIN_ERROR
deriving DecidableEq, Repr

structure SSError where
  code : ErrCode
  message : JStr
deriving DecidableEq, Repr

def ErrorFactory.execution (message : JStr) : SSError := ⟨.EXECUTION_ERROR, message⟩

def ErrorFactory.validation (message : JStr) : SSError := ⟨.VALIDATION_ERROR, message⟩

/-! ### Configuration and execution context -/

inductive ErrMode where
  | throwMode
  | returnNull
  | returnDefault
deriving DecidableEq, Repr

structure Config where
  errorHandling : ErrMode
  defaultValue : Value
  cacheEnabled : Bool
  cacheTTL : Nat
  maxDepth : Int

structure ExecutionContext where
  element : Value
  currentValue : Value
  config : Config
  hadSoftError : Bool
  softError : Option SSError

/-- The value a failed stage resolves to (`return-default` substitutes the
configured default, every other non-throw mode substitutes null). -/
def resolveVal (ctx : ExecutionContext) : Value :=
  if ctx.config.errorHandling == .returnDefault then ctx.config.defaultValue else .vNull

/-- The recurring source pattern
`if (!ctx.hadSoftError) { ctx.hadSoftError = true; err = e; ctx.softError = err }`
followed by `throw err || ctx.softError`: returns the updated context and
the error a throw would surface (the previously stored one when the flag was
already set). -/
def softRecord (ctx : ExecutionContext) (e : SSError) : ExecutionContext × SSError :=
  if ctx.hadSoftError then (ctx, ctx.softError.getD e)
  else ({ ctx with hadSoftError := true, softError := some e }, e)

/-- The variant without a throw (`if (!ctx.hadSoftError) { ... }` alone). -/
def recordOnly (ctx : ExecutionContext) (e : SSError) : ExecutionContext :=
  if ctx.hadSoftError then ctx
  else { ctx with hadSoftError := true, softError := some e }

/-! ### Command registry (commands/registry.ts) -/

inductive Arg where
  | str (s : JStr)
  | num (i : Int)
deriving DecidableEq, Repr

structure CommandHandler where
  execute : ExecutionContext → List Arg → Except SSError (Value × ExecutionContext)
  validate : Option (List Arg → Bool)

abbrev Registry := List (JStr × CommandHandler)

def regRegister (reg : Registry) (name : JStr) (h : CommandHandler) : Registry :=
  (name, h) :: reg

def regLookup (reg : Registry) (name : JStr) : Option CommandHandler :=
  (reg.find? (fun p => p.1 == name)).map (fun p => p.2)

def regHas (reg : Registry) (name : JStr) : Bool :=
  (regLookup reg name).isSome

/-- `CommandRegistry.execute`: unknown-command error, argument validation,
then the handler; an error thrown by the handler is wrapped as an
execution-kind error carrying the original message. -/
def registryExecute (reg : Registry) (name : JStr) (ctx : ExecutionContext)
    (args : List Arg) : Except SSError (Value × ExecutionContext) :=
  match regLookup reg name with
  | none => .error (ErrorFactory.execution (strL "Unknown command: " ++ name))
  | some h =>
    if (match h.validate with | some v => !(v args) | none => false) then
      .error (ErrorFactory.validation (strL "Invalid arguments for command " ++ name))
    else
      match h.execute ctx args with
      | .ok r => .ok r
      | .error e =>
        .error (ErrorFactory.execution
          (strL "Error executing command " ++ name ++ strL ": " ++ e.message))

/-! ### Built-in commands (commands/built-in.ts) -/

/-- `cssSelectorCommand.execute`.  `querySelectorAll` is a host (DOM)
capability and no modelled `Value` is an Element or Document, so the
element branch is unreachable and the array branch collects no results;
both therefore return null, exactly as the source does for non-element
inputs. -/
def cssSelectorExecute (ctx : ExecutionContext) (_selector : JStr) :
    Except SSError (Value × ExecutionContext) :=
  match ctx.currentValue with
  | .vArr _ => .ok (.vNull, ctx)
  | _ => .ok (.vNull, ctx)

def cssSelectorCommand : CommandHandler :=
  { execute := fun ctx args =>
      match args with
      | [.str selector] => cssSelectorExecute ctx selector
      | _ => .error (ErrorFactory.validation (strL "Invalid arguments for command css-selector"))
    validate := some (fun args => match args with | [.str _] => true | _ => false) }

/-- `propertyCommand.execute` on a given property name. -/
def propertyExecute (ctx : ExecutionContext) (propertyName : JStr) :
    Except SSError (Value × ExecutionContext) :=
  match ctx.currentValue with
  | .vNull =>
    let p := softRecord ctx (ErrorFactory.execution
      (strL "Cannot access property " ++ propertyName ++ strL " on null or undefined value"))
    if ctx.config.errorHandling == .throwMode then .error p.2
    else .ok (resolveVal ctx, p.1)
  | .vUndefined =>
    let p := softRecord ctx (ErrorFactory.execution
      (strL "Cannot access property " ++ propertyName ++ strL " on null or undefined value"))
    if ctx.config.errorHandling == .throwMode then .error p.2
    else .ok (resolveVal ctx, p.1)
  | .vArr items =>
    let results := items.map (fun item =>
      if truthy item && isObjType item && hasPropJS item propertyName
      then getPropJS item propertyName else Value.vNull)
    let itemHadError := items.any (fun item =>
      !(truthy item && isObjType item && hasPropJS item propertyName) &&
      !(isNull item) && !(isUndef item))
    let ctx1 := if itemHadError then
        recordOnly ctx (ErrorFactory.execution
          (strL "Property " ++ propertyName ++ strL " not found on one or more items in array"))
      else ctx
    if results.all isNull && items.length > 0 then .ok (.vNull, ctx1)
    else .ok (if results.length > 0 then .vArr results else .vNull, ctx1)
  | v =>
    if truthy v && isObjType v && hasPropJS v propertyName then
      .ok (getPropJS v propertyName, ctx)
    else if truthy v && (isObjType v || isFunType v) then
      let p := softRecord ctx (ErrorFactory.execution
        (strL "Property " ++ propertyName ++ strL " not found on target object."))
      if ctx.config.errorHandling == .throwMode then .error p.2
      else .ok (resolveVal ctx, p.1)
    else
      let ctx1 := recordOnly ctx (ErrorFactory.execution
        (strL "Property " ++ propertyName ++ strL " could not be accessed."))
      .ok (resolveVal ctx, ctx1)

def propertyCommand : CommandHandler :=
  { execute := fun ctx args =>
      match args with
      | [.str propertyName] => propertyExecute ctx propertyName
      | _ => .error (ErrorFactory.validation (strL "Invalid arguments for command property"))
    validate := some (fun args => match args with | [.str _] => true | _ => false) }

/-- `arrayAccessCommand.execute` on a given index. -/
def arrayAccessExecute (ctx : ExecutionContext) (index : Int) :
    Except SSError (Value × ExecutionContext) :=
  match ctx.currentValue with
  | .vArr items =>
    let len : Int := items.length
    let actualIndex := if index < 0 then len + index else index
    if 0 ≤ actualIndex && actualIndex < len then
      .ok (items.getD actualIndex.toNat .vNull, ctx)
    else
      let p := softRecord ctx (ErrorFactory.execution
        (strL "Index " ++ strL (toString index) ++
         strL " out of bounds for array of length " ++ strL (toString items.length)))
      if ctx.config.errorHandling == .throwMode then .error p.2
      else .ok (resolveVal ctx, p.1)
  | v =>
    let p := softRecord ctx (ErrorFactory.execution
      (strL "Cannot apply array access to non-array type: " ++ typeofStr v))
    if ctx.config.errorHandling == .throwMode then .error p.2
    else .ok (resolveVal ctx, p.1)

def arrayAccessCommand : CommandHandler :=
  { execute := fun ctx args =>
      match args with
      | [.num index] => arrayAccessExecute ctx index
      | _ => .error (ErrorFactory.validation (strL "Invalid arguments for command array-access"))
    validate := some (fun args => match args with | [.num _] => true | _ => false) }

/-- `getPropCommand` delegates to the property command. -/
def getPropCommand : CommandHandler :=
  { execute := fun ctx args =>
      match args with
      | [.str propertyName] => propertyExecute ctx propertyName
      | _ => .error (ErrorFactory.validation (strL "Invalid arguments for command getProp"))
    validate := some (fun args => match args with | [.str _] => true | _ => false) }

/-- The guard of one descent step of `recursivePropCommand`
(`current && typeof current === "object" && propertyName in current`). -/
def canStepProp (propertyName : JStr) (v : Value) : Bool :=
  truthy v && isObjType v && hasPropJS v propertyName

/-- Pure iterated property descent: the value reached after `n` successful
steps, `none` when a step fails earlier. -/
def followProp (propertyName : JStr) : Nat → Value → Option Value
  | 0, v => some v
  | Nat.succ n, v =>
    if canStepProp propertyName v then followProp propertyName n (getPropJS v propertyName)
    else none

/-- The descent loop of `recursivePropCommand` (`i` counts completed steps,
so a break is reported at depth `i + 1`). -/
def recursivePropStep (propertyName : JStr) :
    Nat → Nat → Value → ExecutionContext → Except SSError (Value × ExecutionContext)
  | 0, _, current, ctx => .ok (current, ctx)
  | Nat.succ n, i, current, ctx =>
    if canStepProp propertyName current then
      recursivePropStep propertyName n (i + 1) (getPropJS current propertyName) ctx
    else
      let p := softRecord ctx (ErrorFactory.execution
        (strL "Recursive property " ++ propertyName ++
         strL " access failed at depth " ++ strL (toString (i + 1))))
      if ctx.config.errorHandling == .throwMode then .error p.2
      else .ok (resolveVal ctx, p.1)

/-- `typeof times === "string" ? parseInt(times, 10) : times`
(`none` models `NaN`). -/
def timesVal (times : Arg) : Option Int :=
  match times with
  | .str s => parseIntJS s
  | .num i => some i

/-- `recursivePropCommand.execute`: a textual `times` goes through
`parseInt` (`none` models `NaN`); `NaN` or `times ≤ 0` is a no-op. -/
def recursivePropExecute (ctx : ExecutionContext) (propertyName : JStr) (times : Arg) :
    Except SSError (Value × ExecutionContext) :=
  match timesVal times with
  | none => .ok (ctx.currentValue, ctx)
  | some t =>
    if t ≤ 0 then .ok (ctx.currentValue, ctx)
    else recursivePropStep propertyName t.toNat 0 ctx.currentValue ctx

def recursivePropCommand : CommandHandler :=
  { execute := fun ctx args =>
      match args with
      | [.str propertyName] => recursivePropExecute ctx propertyName (.num 1)
      | [.str propertyName, t] => recursivePropExecute ctx propertyName t
      | _ => .error (ErrorFactory.validation (strL "Invalid arguments for command recursiveProp"))
    validate := some (fun args =>
      match args with
      | [.str _] => true
      | [.str _, _] => true
      | _ => false) }

/-- JavaScript `s.includes(sub)`: substring containment. -/
def strIncludes (s sub : JStr) : Bool := decide (sub <:+: s)

/-- The `checkItem` closure shared by `propIncludes`,
`propIncludesLowercase` and `matchProp` (they differ only in the string
predicate): the item itself when its named property is a string accepted by
the predicate, otherwise null. -/
def checkItemBy (propertyName : JStr) (checkStr : JStr → Bool) (item : Value) : Option Value :=
  if truthy item && isObjType item && hasPropJS item propertyName then
    match getPropJS item propertyName with
    | .vStr s => if checkStr s then some item else none
    | _ => none
  else none

/-- `item && typeof item === "object" && propertyName in item && typeof item[propertyName] === "string"`. -/
def qualifiesStrProp (propertyName : JStr) (item : Value) : Bool :=
  truthy item && isObjType item && hasPropJS item propertyName &&
  (match getPropJS item propertyName with | .vStr _ => true | _ => false)

/-- Shared body of `propIncludesCommand`, `propIncludesLowercaseCommand`
and the filtering part of `matchPropCommand` (identical in the source up to
the string predicate and the command name in the messages). -/
def filterPropExecute (checkStr : JStr → Bool) (label : JStr)
    (ctx : ExecutionContext) (propertyName : JStr) :
    Except SSError (Value × ExecutionContext) :=
  match ctx.currentValue with
  | .vArr items =>
    let results := items.filterMap (checkItemBy propertyName checkStr)
    let ctx1 := if results.isEmpty && items.length > 0 &&
        !(items.any (qualifiesStrProp propertyName)) then
        recordOnly ctx (ErrorFactory.execution
          (strL "Property " ++ propertyName ++ strL " for " ++ label ++
           strL " was not a string or not found on items."))
      else ctx
    .ok (if results.length > 0 then .vArr results else .vNull, ctx1)
  | v =>
    let result := checkItemBy propertyName checkStr v
    if result.isNone && truthy v && isObjType v && !(qualifiesStrProp propertyName v) then
      let p := softRecord ctx (ErrorFactory.execution
        (strL "Property " ++ propertyName ++ strL " for " ++ label ++
         strL " was not a string or not found."))
      if ctx.config.errorHandling == .throwMode then .error p.2
      else .ok (resolveVal ctx, p.1)
    else .ok (result.getD .vNull, ctx)

def propIncludesCommand : CommandHandler :=
  { execute := fun ctx args =>
      match args with
      | [.str propertyName, .str searchString] =>
        filterPropExecute (fun s => strIncludes s searchString) (strL "propIncludes") ctx propertyName
      | _ => .error (ErrorFactory.validation (strL "Invalid arguments for command propIncludes"))
    validate := some (fun args => match args with | [.str _, .str _] => true | _ => false) }

def propIncludesLowercaseCommand : CommandHandler :=
  { execute := fun ctx args =>
      match args with
      | [.str propertyName, .str searchString] =>
        filterPropExecute
          (fun s => strIncludes (s.map Char.toLower) (searchString.map Char.toLower))
          (strL "propIncludesLowercase") ctx propertyName
      | _ => .error (ErrorFactory.validation (strL "Invalid arguments for command propIncludesLowercase"))
    validate := some (fun args => match args with | [.str _, .str _] => true | _ => false) }

/-- `new RegExp(pattern)` and `regex.test(s)` are host capabilities; an
oracle supplies pattern validity and the match predicate. -/
structure RegexOracle where
  valid : JStr → Bool
  test : JStr → JStr → Bool

/-- `matchPropCommand.execute`: an invalid pattern is a validation-kind
error, thrown directly in throw mode, otherwise recorded as the first soft
error and resolved to null/default. -/
def matchPropExecute (rx : RegexOracle) (ctx : ExecutionContext)
    (propertyName pattern : JStr) : Except SSError (Value × ExecutionContext) :=
  if !(rx.valid pattern) then
    let errRegex := ErrorFactory.validation (strL "Invalid regex pattern: " ++ pattern)
    if ctx.config.errorHandling == .throwMode then .error errRegex
    else
      let ctx1 := recordOnly ctx errRegex
      .ok (resolveVal ctx, ctx1)
  else
    filterPropExecute (fun s => rx.test pattern s) (strL "matchProp") ctx propertyName

def matchPropCommand (rx : RegexOracle) : CommandHandler :=
  { execute := fun ctx args =>
      match args with
      | [.str propertyName, .str pattern] => matchPropExecute rx ctx propertyName pattern
      | _ => .error (ErrorFactory.validation (strL "Invalid arguments for command matchProp"))
    validate := some (fun args => match args with | [.str _, .str _] => true | _ => false) }

/-- `registerBuiltInCommands` starting from a cleared registry, in source
order. -/
def builtinRegistry (rx : RegexOracle) : Registry :=
  regRegister (regRegister (regRegister (regRegister (regRegister (regRegister
    (regRegister (regRegister (regRegister [] (strL "css-selector") cssSelectorCommand)
      (strL "property") propertyCommand)
      (strL "array-access") arrayAccessCommand)
      (strL "getProp") getPropCommand)
      (strL "p") getPropCommand)
      (strL "recursiveProp") recursivePropCommand)
      (strL "propIncludes") propIncludesCommand)
      (strL "propIncludesLowercase") propIncludesLowercaseCommand)
      (strL "matchProp") (matchPropCommand rx)

/-! ### Execution engine (core/execution-engine.ts) -/

/-- `isNativeMethod`: the value is of object/function type and exposes a
function-valued member of that name.  Prototype methods of arrays, strings
and functions are host capabilities outside the model, so only plain
objects expose natives here. -/
def isNativeMethod (v : Value) (methodName : JStr) : Bool :=
  match v with
  | .vObj props =>
    match lookupProp props methodName with
    | some (.vFun _) => true
    | _ => false
  | _ => false

/-- Decimal numeral (optional fraction) accepted by JavaScript `Number`;
exponent/hex/Infinity forms are outside the model. -/
def parseUnsignedQ (t : JStr) : Option Rat :=
  let intPart := t.takeWhile isDigitChar
  let rest := t.dropWhile isDigitChar
  match rest with
  | [] => if intPart.isEmpty then none else some ((digitsToNat intPart : Rat))
  | '.' :: frac =>
    if frac.all isDigitChar && !(intPart.isEmpty && frac.isEmpty) then
      some ((digitsToNat intPart : Rat) + (digitsToNat frac : Rat) / ((10 : Rat) ^ frac.length))
    else none
  | _ => none

def parseDecimalQ (t : JStr) : Option Rat :=
  match t with
  | '-' :: u => (parseUnsignedQ u).map (fun q => -q)
  | '+' :: u => parseUnsignedQ u
  | _ => parseUnsignedQ t

/-- `Number(arg)` under the guard
`!isNaN(num) && isFinite(num) && arg.trim() !== ""` of the engine's
argument conversion: `none` when the guard rejects the coercion. -/
def jsNumberQ (s : JStr) : Option Rat :=
  let t := jsTrim s
  if t.isEmpty then none else parseDecimalQ t

/-- The textual-argument coercion of `executeNativeMethod`: boolean
literals first, then unambiguous numeric text, else the string itself. -/
def convertNativeArg (arg : JStr) : Prim :=
  if arg == strL "true" then .pBool true
  else if arg == strL "false" then .pBool false
  else
    match jsNumberQ arg with
    | some q => .pNum q
    | none => .pStr arg

/-- `executeNativeMethod` (only called under `isNativeMethod`; host methods
are modelled as total, so the catch-and-wrap branch is unreachable). -/
def executeNativeMethod (v : Value) (methodName : JStr) (args : List JStr) : Value :=
  match v with
  | .vObj props =>
    match lookupProp props methodName with
    | some (.vFun f) => f (args.map convertNativeArg)
    | _ => .vNull
  | _ => .vNull

/-- `ExecutionEngine.executeCommand`: dispatch on the command kind; an
Invocation tries a native method first, then the registry, and otherwise
records a soft unknown-command error. -/
def executeCommand (reg : Registry) (cmd : Command) (ctx : ExecutionContext) :
    Except SSError (Value × ExecutionContext) :=
  match cmd with
  | .cssSelector selector => registryExecute reg (strL "css-selector") ctx [.str selector]
  | .function name args =>
    match ctx.currentValue with
    | .vNull =>
      let p := softRecord ctx (ErrorFactory.execution
        (strL "Cannot call method " ++ name ++ strL " on null or undefined value"))
      if ctx.config.errorHandling == .throwMode then .error p.2
      else .ok (resolveVal ctx, p.1)
    | .vUndefined =>
      let p := softRecord ctx (ErrorFactory.execution
        (strL "Cannot call method " ++ name ++ strL " on null or undefined value"))
      if ctx.config.errorHandling == .throwMode then .error p.2
      else .ok (resolveVal ctx, p.1)
    | v =>
      if isNativeMethod v name then .ok (executeNativeMethod v name args, ctx)
      else if regHas reg name then registryExecute reg name ctx (args.map Arg.str)
      else
        let p := softRecord ctx (ErrorFactory.execution
          (strL "Unknown method or command: " ++ name))
        if ctx.config.errorHandling == .throwMode then .error p.2
        else .ok (resolveVal ctx, p.1)
  | .property name => registryExecute reg (strL "property") ctx [.str name]
  | .arrayAccess index => registryExecute reg (strL "array-access") ctx [.num index]

/-- The stage loop of `executeCommands`: threads the current value, and
promotes an undefined result of an interior stage (when no soft error is
recorded yet) to a soft error with null/default substitution. -/
def executeCommandsLoop (reg : Registry) :
    List Command → Value → ExecutionContext → Except SSError (Value × ExecutionContext)
  | [], current, ctx => .ok (current, ctx)
  | cmd :: restCmds, current, ctx =>
    let ctx0 := { ctx with currentValue := current }
    match executeCommand reg cmd ctx0 with
    | .error e => .error e
    | .ok (v, ctx1) =>
      if isUndef v && !ctx1.hadSoftError && !restCmds.isEmpty then
        let err := ErrorFactory.execution
          (strL "Command " ++ cmd.name ++ strL " resulted in undefined, breaking execution chain.")
        if ctx1.config.errorHandling == .throwMode then .error err
        else
          let ctx2 := { ctx1 with hadSoftError := true, softError := some err }
          executeCommandsLoop reg restCmds (resolveVal ctx2) ctx2
      else executeCommandsLoop reg restCmds v ctx1

/-- `ExecutionEngine.executeCommands` with its depth guard (`execute` calls
it with depth 0; stages never re-enter it, so the depth can exceed the
bound only for a negative configured maximum). -/
def executeCommands (reg : Registry) (cmds : List Command) (ctx : ExecutionContext)
    (depth : Int) : Except SSError (Value × ExecutionContext) :=
  if depth > ctx.config.maxDepth then
    .error (ErrorFactory.execution
      (strL "Maximum execution depth exceeded: " ++ strL (toString ctx.config.maxDepth)))
  else executeCommandsLoop reg cmds ctx.currentValue ctx

/-! ### Cache (core/cache.ts) -/

structure CacheEntry where
  value : Value
  timestamp : Nat
  ttl : Nat
  hits : Nat

structure Cache where
  store : List (JStr × CacheEntry)
  defaultTTL : Nat

/-- The constructor: the field initialiser is 60000 and a falsy argument
(absent or zero) leaves it in place (`if (defaultTTL) ...`). -/
def mkCache (defaultTTL : Option Nat) : Cache :=
  ⟨[], match defaultTTL with
       | some t => if t == 0 then 60000 else t
       | none => 60000⟩

/-- `Cache.set`: a falsy (zero/absent) per-entry TTL falls back to the
instance default (`ttl || this.defaultTTL`). -/
def Cache.set (c : Cache) (key : JStr) (value : Value) (ttl : Option Nat) (now : Nat) : Cache :=
  let entry : CacheEntry :=
    { value := value, timestamp := now,
      ttl := (match ttl with
              | some t => if t == 0 then c.defaultTTL else t
              | none => c.defaultTTL),
      hits := 0 }
  { c with store := (key, entry) :: c.store.filter (fun p => !(p.1 == key)) }

/-- `Cache.get`: null for absent and for expired (evicting the expired
entry); a live hit increments the hit counter. -/
def Cache.get (c : Cache) (key : JStr) (now : Nat) : Option Value × Cache :=
  match c.store.find? (fun p => p.1 == key) with
  | none => (none, c)
  | some p =>
    if now - p.2.timestamp > p.2.ttl then
      (none, { c with store := c.store.filter (fun q => !(q.1 == key)) })
    else
      (some p.2.value,
       { c with store := c.store.map (fun q =>
           if q.1 == key then (q.1, { q.2 with hits := q.2.hits + 1 }) else q) })

/-! ### Top-level `ExecutionEngine.execute` -/

structure ExecutionResult where
  success : Bool
  value : Value
  error : Option SSError
  cacheHit : Bool
  commandsExecuted : Nat

/-- A stand-in for `JSON.stringify(commands)`: an opaque serialisation used
only as a cache key. -/
def serializeCommand : Command → JStr
  | .cssSelector s => strL "css-selector:" ++ s ++ strL ";"
  | .function n args => strL "function:" ++ n ++ strL "(" ++ args.foldl (fun acc a => acc ++ a ++ strL ",") [] ++ strL ");"
  | .property n => strL "property:" ++ n ++ strL ";"
  | .arrayAccess i => strL "array-access:" ++ strL (toString i) ++ strL ";"

/-- `generateCacheKey`: serialised command list plus a best-effort node
identity; no modelled value is an Element, so the identity is the
"document" sentinel. -/
def generateCacheKey (commands : List Command) (_element : Value) : JStr :=
  commands.foldl (fun acc c => acc ++ serializeCommand c) [] ++ strL ":document"

def initContext (element : Value) (config : Config) : ExecutionContext :=
  ⟨element, element, config, false, none⟩

/-- The non-cache-hit path of `execute`: run the stages, report
`success = !hadSoftError` with the computed value and the first soft error,
store cacheable results; on a hard error report the default only in
`return-default` mode when the throwable is not a timeout. -/
def executeRun (reg : Registry) (commands : List Command) (element : Value)
    (config : Config) (cache : Cache) (now : Nat) (cacheKey : JStr) :
    ExecutionResult × Cache :=
  let ctx := initContext element config
  match executeCommands reg commands ctx 0 with
  | .ok (resultValue, ctx1) =>
    let cache2 := if config.cacheEnabled && !(isNull resultValue) && !ctx1.hadSoftError
      then cache.set cacheKey resultValue (some config.cacheTTL) now else cache
    ({ success := !ctx1.hadSoftError, value := resultValue,
       error := if ctx1.hadSoftError then ctx1.softError else none,
       cacheHit := false, commandsExecuted := commands.length }, cache2)
  | .error e =>
    ({ success := false,
       value := if config.errorHandling == .returnDefault && !(e.code == .TIMEOUT_ERROR)
                then config.defaultValue else .vNull,
       error := some e, cacheHit := false, commandsExecuted := 0 }, cache)

/-- `ExecutionEngine.execute`: cache lookup first (when enabled), then the
main run. -/
def engineExecute (reg : Registry) (commands : List Command) (element : Value)
    (config : Config) (cache : Cache) (now : Nat) : ExecutionResult × Cache :=
  let cacheKey := generateCacheKey commands element
  if config.cacheEnabled then
    match cache.get cacheKey now with
    | (some v, cache1) =>
      ({ success := true, value := v, error := none, cacheHit := true,
         commandsExecuted := 0 }, cache1)
    | (none, cache1) => executeRun reg commands element config cache1 now cacheKey
  else executeRun reg commands element config cache now cacheKey

/-! ## Shared concrete fixtures for witnesses -/

/-- An oracle accepting every pattern. -/
def rxTrue : RegexOracle := ⟨fun _ => true, fun _ _ => true⟩

/-- An oracle rejecting every pattern (instantiating it at `(`, which the
JavaScript `RegExp` constructor indeed rejects). -/
def rxFalse : RegexOracle := ⟨fun _ => false, fun _ _ => false⟩

def cfgReturnNull : Config := ⟨.returnNull, .vNull, false, 60000, 50⟩

def cfgReturnDefault : Config := ⟨.returnDefault, .vStr (strL "N/A"), false, 60000, 50⟩

def cfgThrow : Config := ⟨.throwMode, .vNull, false, 60000, 50⟩

/-! ## General lemmas about the soft-error helpers -/

theorem softRecord_of_fresh (ctx : ExecutionContext) (e : SSError)
    (h : ctx.hadSoftError = false) :
    softRecord ctx e = ({ ctx with hadSoftError := true, softError := some e }, e) := by
  simp [softRecord, h]

theorem softRecord_of_had (ctx : ExecutionContext) (e : SSError)
    (h : ctx.hadSoftError = true) :
    softRecord ctx e = (ctx, ctx.softError.getD e) := by
  simp [softRecord, h]

theorem recordOnly_of_fresh (ctx : ExecutionContext) (e : SSError)
    (h : ctx.hadSoftError = false) :
    recordOnly ctx e = { ctx with hadSoftError := true, softError := some e } := by
  simp [recordOnly, h]

theorem recordOnly_of_had (ctx : ExecutionContext) (e : SSError)
    (h : ctx.hadSoftError = true) :
    recordOnly ctx e = ctx := by
  simp [recordOnly, h]

/-! ## C10: zero cache TTL falls back to the 60000 ms default -/

/-- **C10**: `Cache.set` with TTL 0 — or a `Cache` constructed with default
TTL 0 — stores the entry with the built-in default TTL of 60000 ms (falsy
TTLs fall back to the default), so a zero TTL cannot make an entry expire
immediately: a `get` at the same instant still returns the value. -/
theorem cache_zero_ttl_falls_back_to_default :
  (mkCache (some 0)).defaultTTL = 60000 ∧
  (∀ (key : JStr) (v : Value) (now : Nat),
    ((mkCache none).set key v (some 0) now).store =
      [(key, { value := v, timestamp := now, ttl := 60000, hits := 0 })]) ∧
  (∀ (c : Cache) (key : JStr) (v : Value) (now : Nat),
    ((c.set key v (some 0) now).store.find? (fun p => p.1 == key)).map (fun p => p.2.ttl)
      = some c.defaultTTL) ∧
  (∀ (key : JStr) (v : Value) (now : Nat),
    (((mkCache none).set key v (some 0) now).get key now).1 = some v) := by
  refine ⟨rfl, ?_, ?_, ?_⟩
  · intro key v now
    simp [mkCache, Cache.set]
  · intro c key v now
    simp [Cache.set, List.find?]
  · intro key v now
    simp [mkCache, Cache.set, Cache.get, List.find?]

/-! ## C6: array index semantics -/

/-- **C6**: for an array stage, a negative index `i` resolves from the end
(element `N + i` when in range, so `-1` is element `N - 1`); an
out-of-range resolved index (in particular `i = N`) records a soft error
resolved per the error-handling mode (null / configured default / throw);
a non-array current value records a soft error with the same resolution. -/
theorem array_access_indexing :
  (∀ (ctx : ExecutionContext) (items : List Value) (index : Int),
    ctx.currentValue = Value.vArr items →
    ctx.hadSoftError = false →
    ((0 ≤ (if index < 0 then (items.length : Int) + index else index) →
      (if index < 0 then (items.length : Int) + index else index) < (items.length : Int) →
      arrayAccessExecute ctx index =
        .ok (items.getD (if index < 0 then (items.length : Int) + index else index).toNat
              Value.vNull, ctx)) ∧
     (¬(0 ≤ (if index < 0 then (items.length : Int) + index else index) ∧
        (if index < 0 then (items.length : Int) + index else index) < (items.length : Int)) →
      ((ctx.config.errorHandling ≠ ErrMode.throwMode →
         arrayAccessExecute ctx index =
           .ok (resolveVal ctx,
                { ctx with
                  hadSoftError := true
                  softError := some (ErrorFactory.execution
                    (strL "Index " ++ strL (toString index) ++
                     strL " out of bounds for array of length " ++
                     strL (toString items.length))) })) ∧
       (ctx.config.errorHandling = ErrMode.throwMode →
         arrayAccessExecute ctx index =
           .error (ErrorFactory.execution
             (strL "Index " ++ strL (toString index) ++
              strL " out of bounds for array of length " ++
              strL (toString items.length)))))))) ∧
  (∀ (ctx : ExecutionContext) (index : Int),
    ctx.hadSoftError = false →
    (∀ items, ctx.currentValue ≠ Value.vArr items) →
    ((ctx.config.errorHandling ≠ ErrMode.throwMode →
       arrayAccessExecute ctx index =
         .ok (resolveVal ctx,
              { ctx with
                hadSoftError := true
                softError := some (ErrorFactory.execution
                  (strL "Cannot apply array access to non-array type: " ++
                   typeofStr ctx.currentValue)) })) ∧
     (ctx.config.errorHandling = ErrMode.throwMode →
       arrayAccessExecute ctx index =
         .error (ErrorFactory.execution
           (strL "Cannot apply array access to non-array type: " ++
            typeofStr ctx.currentValue))))) := by
  constructor
  · intro ctx items index hcv hfresh
    constructor
    · intro h0 hlt
      simp only [arrayAccessExecute, hcv]
      have hcond : (0 ≤ (if index < 0 then (items.length : Int) + index else index) &&
          (if index < 0 then (items.length : Int) + index else index) < (items.length : Int)) = true := by
        simp [h0, hlt]
      simp [hcond]
    · intro hnot
      simp only [arrayAccessExecute, hcv]
      have hcond : (0 ≤ (if index < 0 then (items.length : Int) + index else index) &&
          (if index < 0 then (items.length : Int) + index else index) < (items.length : Int)) = false := by
        rcases Decidable.em (0 ≤ (if index < 0 then (items.length : Int) + index else index)) with h0 | h0
        · rcases Decidable.em ((if index < 0 then (items.length : Int) + index else index) < (items.length : Int)) with h1 | h1
          · exact absurd ⟨h0, h1⟩ hnot
          · simp [h1]
        · simp [h0]
      rw [softRecord_of_fresh ctx _ hfresh]
      constructor
      · intro hmode
        have hb : (ctx.config.errorHandling == ErrMode.throwMode) = false := by
          simp [hmode]
        simp [hcond, hb, hcv]
      · intro hmode
        have hb : (ctx.config.errorHandling == ErrMode.throwMode) = true := by
          simp [hmode]
        simp [hcond, hb, hcv]
  · intro ctx index hfresh hnarr
    cases hcv : ctx.currentValue
    case vArr items => exact absurd hcv (hnarr items)
    all_goals exact
      ⟨fun hmode => by simp [arrayAccessExecute, hcv, softRecord, hfresh, hmode],
       fun hmode => by simp [arrayAccessExecute, hcv, softRecord, hfresh, hmode]⟩

/-- Witness for C6: on `[10, 20, 30]`, index `-1` yields `30`; index `3`
(the length) records an out-of-bounds soft error and resolves to null in
`return-null` mode. -/
theorem array_access_indexing_witness :
  arrayAccessExecute (initContext (Value.vArr [Value.vNum 10, Value.vNum 20, Value.vNum 30])
      cfgReturnNull) (-1) =
    .ok (Value.vNum 30, initContext (Value.vArr [Value.vNum 10, Value.vNum 20, Value.vNum 30])
      cfgReturnNull) ∧
  arrayAccessExecute (initContext (Value.vArr [Value.vNum 10, Value.vNum 20, Value.vNum 30])
      cfgReturnNull) 3 =
    .ok (Value.vNull,
      { initContext (Value.vArr [Value.vNum 10, Value.vNum 20, Value.vNum 30]) cfgReturnNull with
        hadSoftError := true
        softError := some (ErrorFactory.execution
          (strL "Index 3 out of bounds for array of length 3")) }) := by
  constructor
  · have h := (array_access_indexing.1
      (initContext (Value.vArr [Value.vNum 10, Value.vNum 20, Value.vNum 30]) cfgReturnNull)
      [Value.vNum 10, Value.vNum 20, Value.vNum 30] (-1) rfl rfl).1
      (by decide) (by decide)
    exact h.trans (by rfl)
  · have h := ((array_access_indexing.1
      (initContext (Value.vArr [Value.vNum 10, Value.vNum 20, Value.vNum 30]) cfgReturnNull)
      [Value.vNum 10, Value.vNum 20, Value.vNum 30] 3 rfl rfl).2
      (by decide)).1 (by decide)
    exact h.trans (by rfl)

/-! ## C7: recursive property descent -/

/-- The soft error recorded when the descent of `recursiveProp` breaks at
depth `k` (the message built in `recursivePropCommand`). -/
def recDepthErr (propertyName : JStr) (k : Nat) : SSError :=
  ErrorFactory.execution
    (strL "Recursive property " ++ propertyName ++
     strL " access failed at depth " ++ strL (toString k))

theorem recursivePropStep_of_follow (propertyName : JStr) :
    ∀ (n i : Nat) (current : Value) (ctx : ExecutionContext) (r : Value),
      followProp propertyName n current = some r →
      recursivePropStep propertyName n i current ctx = .ok (r, ctx) := by
  intro n
  induction n with
  | zero =>
    intro i current ctx r h
    simp [followProp] at h
    simp [recursivePropStep, h]
  | succ m ih =>
    intro i current ctx r h
    simp only [followProp] at h
    by_cases hc : canStepProp propertyName current = true
    · rw [if_pos hc] at h
      simp only [recursivePropStep, hc, if_pos]
      exact ih (i + 1) (getPropJS current propertyName) ctx r h
    · rw [if_neg hc] at h
      exact absurd h (by simp)

theorem recursivePropStep_break (propertyName : JStr) :
    ∀ (j n i : Nat) (current : Value) (ctx : ExecutionContext) (w : Value),
      ctx.hadSoftError = false →
      j < n →
      followProp propertyName j current = some w →
      canStepProp propertyName w = false →
      ((ctx.config.errorHandling ≠ ErrMode.throwMode →
         recursivePropStep propertyName n i current ctx =
           .ok (resolveVal ctx,
                { ctx with
                  hadSoftError := true
                  softError := some (recDepthErr propertyName (i + j + 1)) })) ∧
       (ctx.config.errorHandling = ErrMode.throwMode →
         recursivePropStep propertyName n i current ctx =
           .error (recDepthErr propertyName (i + j + 1)))) := by
  intro j
  induction j with
  | zero =>
    intro n i current ctx w hfresh hlt hfollow hstop
    obtain ⟨m, rfl⟩ : ∃ m, n = m + 1 := ⟨n - 1, by omega⟩
    simp only [followProp, Option.some.injEq] at hfollow
    subst hfollow
    constructor
    · intro hmode
      simp [recursivePropStep, hstop, softRecord, hfresh, hmode, recDepthErr]
    · intro hmode
      simp [recursivePropStep, hstop, softRecord, hfresh, hmode, recDepthErr]
  | succ k ih =>
    intro n i current ctx w hfresh hlt hfollow hstop
    obtain ⟨m, rfl⟩ : ∃ m, n = m + 1 := ⟨n - 1, by omega⟩
    simp only [followProp] at hfollow
    by_cases hc : canStepProp propertyName current = true
    · rw [if_pos hc] at hfollow
      have ihr := ih m (i + 1) (getPropJS current propertyName) ctx w hfresh (by omega) hfollow hstop
      have harith : i + 1 + k + 1 = i + (k + 1) + 1 := by omega
      rw [harith] at ihr
      simpa [recursivePropStep, hc] using ihr
    · rw [if_neg hc] at hfollow
      exact absurd hfollow (by simp)

/-- **C7**: `recursiveProp(name, times)` is a no-op (current value returned,
no error) when `times` is non-numeric or `≤ 0`; otherwise the named
property is followed `times` sequential steps: a complete descent returns
the reached value, and a break after `i` successful steps records a soft
error naming depth `i + 1` and resolves to null/default/throw per the
error-handling mode. -/
theorem recursiveProp_descent :
  ∀ (ctx : ExecutionContext) (propertyName : JStr) (times : Arg),
    ((timesVal times = none ∨ (∃ t : Int, timesVal times = some t ∧ t ≤ 0)) →
      recursivePropExecute ctx propertyName times = .ok (ctx.currentValue, ctx)) ∧
    (∀ t : Int, timesVal times = some t → 0 < t →
      ((∀ r : Value, followProp propertyName t.toNat ctx.currentValue = some r →
         recursivePropExecute ctx propertyName times = .ok (r, ctx)) ∧
       (∀ (i : Nat) (w : Value), i < t.toNat →
         followProp propertyName i ctx.currentValue = some w →
         canStepProp propertyName w = false →
         ctx.hadSoftError = false →
         ((ctx.config.errorHandling ≠ ErrMode.throwMode →
            recursivePropExecute ctx propertyName times =
              .ok (resolveVal ctx,
                   { ctx with
                     hadSoftError := true
                     softError := some (recDepthErr propertyName (i + 1)) })) ∧
          (ctx.config.errorHandling = ErrMode.throwMode →
            recursivePropExecute ctx propertyName times =
              .error (recDepthErr propertyName (i + 1))))))) := by
  intro ctx propertyName times
  constructor
  · intro h
    rcases h with h | ⟨t, ht, hle⟩
    · simp [recursivePropExecute, h]
    · simp [recursivePropExecute, ht, hle]
  · intro t ht hpos
    constructor
    · intro r hfollow
      simp only [recursivePropExecute, ht]
      rw [if_neg (by omega)]
      exact recursivePropStep_of_follow propertyName t.toNat 0 ctx.currentValue ctx r hfollow
    · intro i w hlt hfollow hstop hfresh
      have hb := recursivePropStep_break propertyName i t.toNat 0 ctx.currentValue ctx w
        hfresh hlt hfollow hstop
      have harith : 0 + i + 1 = i + 1 := by omega
      rw [harith] at hb
      constructor
      · intro hmode
        simp only [recursivePropExecute, ht]
        rw [if_neg (by omega)]
        exact hb.1 hmode
      · intro hmode
        simp only [recursivePropExecute, ht]
        rw [if_neg (by omega)]
        exact hb.2 hmode

/-- The nested object of spec Scenario E. -/
def objNested : Value :=
  Value.vObj [(strL "key",
    Value.vObj [(strL "key",
      Value.vObj [(strL "key", Value.vStr (strL "value"))])])]

/-- Witness for C7 (spec Scenario E): `recursiveProp(key, 3)` on the
3-deep nesting reaches `"value"`; `times = 4` yields null plus a soft
error at depth 4; a non-numeric `times` is a no-op. -/
theorem recursiveProp_descent_witness :
  recursivePropExecute (initContext objNested cfgReturnNull) (strL "key") (.num 3) =
    .ok (Value.vStr (strL "value"), initContext objNested cfgReturnNull) ∧
  recursivePropExecute (initContext objNested cfgReturnNull) (strL "key") (.num 4) =
    .ok (Value.vNull,
         { initContext objNested cfgReturnNull with
           hadSoftError := true
           softError := some (recDepthErr (strL "key") 4) }) ∧
  recursivePropExecute (initContext objNested cfgReturnNull) (strL "key") (.str (strL "abc")) =
    .ok (objNested, initContext objNested cfgReturnNull) := by
  refine ⟨?_, ?_, ?_⟩
  · exact ((recursiveProp_descent (initContext objNested cfgReturnNull) (strL "key")
      (.num 3)).2 3 rfl (by decide)).1 (Value.vStr (strL "value")) rfl
  · have h := (((recursiveProp_descent (initContext objNested cfgReturnNull) (strL "key")
      (.num 4)).2 4 rfl (by decide)).2 3 (Value.vStr (strL "value")) (by decide) rfl rfl rfl).1
      (by decide)
    exact h.trans rfl
  · exact (recursiveProp_descent (initContext objNested cfgReturnNull) (strL "key")
      (.str (strL "abc"))).1 (Or.inl rfl)

/-! ## C4: property access over arrays -/

/-- The soft error recorded when some non-null array element lacks the
property. -/
def arrPropErr (propertyName : JStr) : SSError :=
  ErrorFactory.execution
    (strL "Property " ++ propertyName ++ strL " not found on one or more items in array")

/-- The per-element mapping of `propertyCommand` over an array (the value
of the property when present, null otherwise). -/
def mapPropResults (propertyName : JStr) (items : List Value) : List Value :=
  items.map (fun item =>
    if truthy item && isObjType item && hasPropJS item propertyName
    then getPropJS item propertyName else Value.vNull)

/-- `itemHadError` of `propertyCommand`: some non-null, non-undefined
element lacked the property. -/
def anyItemLacks (propertyName : JStr) (items : List Value) : Bool :=
  items.any (fun item =>
    !(truthy item && isObjType item && hasPropJS item propertyName) &&
    !(isNull item) && !(isUndef item))

/-- **C4 (amended)**: on an array, the property is mapped over the elements
with null substituted where it is missing; a soft error is recorded exactly
when some non-null, non-undefined element lacked it; a non-empty all-null
mapping collapses to null, a non-empty mapping with some non-null entry is
returned as the mapped array.  (On an empty array the stage returns null,
not the empty mapped array — see the counterexample.) -/
theorem property_array_mapping :
  ∀ (ctx : ExecutionContext) (propertyName : JStr) (items : List Value),
    ctx.currentValue = Value.vArr items →
    ctx.hadSoftError = false →
    ∃ ctx1 : ExecutionContext,
      (items ≠ [] → (mapPropResults propertyName items).all isNull = true →
        propertyExecute ctx propertyName = .ok (Value.vNull, ctx1)) ∧
      (items ≠ [] → (mapPropResults propertyName items).all isNull = false →
        propertyExecute ctx propertyName = .ok (Value.vArr (mapPropResults propertyName items), ctx1)) ∧
      ctx1.hadSoftError = anyItemLacks propertyName items ∧
      (anyItemLacks propertyName items = true →
        ctx1 = { ctx with hadSoftError := true, softError := some (arrPropErr propertyName) }) ∧
      (anyItemLacks propertyName items = false → ctx1 = ctx) := by
  intro ctx propertyName items hcv hfresh
  refine ⟨if anyItemLacks propertyName items then
      { ctx with hadSoftError := true, softError := some (arrPropErr propertyName) }
    else ctx, ?_, ?_, ?_, ?_, ?_⟩
  · intro hne hall
    have hlen : (0 < items.length) := List.length_pos.mpr hne
    simp only [mapPropResults] at hall
    cases hbad : anyItemLacks propertyName items with
    | true =>
      have hbad' := hbad
      simp only [anyItemLacks] at hbad'
      simp only [propertyExecute, hcv, hall, hbad', Bool.true_and, decide_eq_true hlen]
      simp [recordOnly, hfresh, arrPropErr, hcv]
    | false =>
      have hbad' := hbad
      simp only [anyItemLacks] at hbad'
      simp only [propertyExecute, hcv, hall, hbad', Bool.true_and, decide_eq_true hlen]
      simp [recordOnly, hfresh, arrPropErr, hcv]
  · intro hne hall
    have hlen : (0 < items.length) := List.length_pos.mpr hne
    simp only [mapPropResults] at hall
    cases hbad : anyItemLacks propertyName items with
    | true =>
      have hbad' := hbad
      simp only [anyItemLacks] at hbad'
      simp only [propertyExecute, hcv, hall, hbad', Bool.false_and, decide_eq_true hlen]
      simp [recordOnly, hfresh, arrPropErr, mapPropResults, hlen, hcv]
    | false =>
      have hbad' := hbad
      simp only [anyItemLacks] at hbad'
      simp only [propertyExecute, hcv, hall, hbad', Bool.false_and, decide_eq_true hlen]
      simp [recordOnly, hfresh, arrPropErr, mapPropResults, hlen, hcv]
  · cases hbad : anyItemLacks propertyName items with
    | true => simp [hbad]
    | false => simp [hbad, hfresh]
  · intro hbad
    simp [hbad]
  · intro hbad
    simp [hbad]

/-- Counterexample for C4 as stated: on the empty array the stage returns
null (with no error), not the mapped (empty) array the claim's final clause
promises. -/
theorem property_on_empty_array_counterexample :
  propertyExecute (initContext (Value.vArr []) cfgReturnNull) (strL "id") =
    .ok (Value.vNull, initContext (Value.vArr []) cfgReturnNull) ∧
  Value.vNull ≠ Value.vArr (([] : List Value).map (fun item =>
    if truthy item && isObjType item && hasPropJS item (strL "id")
    then getPropJS item (strL "id") else Value.vNull)) := by
  exact ⟨rfl, fun h => Value.noConfusion h⟩

/-- The collection of spec Scenario D. -/
def itemsD : List Value :=
  [Value.vObj [(strL "id", Value.vNum 1)],
   Value.vObj [(strL "id", Value.vNum 2)],
   Value.vObj []]

/-- Witness for C4 (spec Scenario D): mapping `id` over
`[{id:1},{id:2},{}]` yields `[1, 2, null]` together with the recorded soft
error, and at engine level `getProp(id)` over that collection reports
`success = false` with the value still populated. -/
theorem property_array_mapping_witness :
  propertyExecute (initContext (Value.vArr itemsD) cfgReturnNull) (strL "id") =
    .ok (Value.vArr [Value.vNum 1, Value.vNum 2, Value.vNull],
         { initContext (Value.vArr itemsD) cfgReturnNull with
           hadSoftError := true
           softError := some (arrPropErr (strL "id")) }) ∧
  (engineExecute (builtinRegistry rxTrue) [Command.function (strL "getProp") [strL "id"]]
     (Value.vArr itemsD) cfgReturnNull (mkCache none) 0).1.success = false ∧
  (engineExecute (builtinRegistry rxTrue) [Command.function (strL "getProp") [strL "id"]]
     (Value.vArr itemsD) cfgReturnNull (mkCache none) 0).1.value =
    Value.vArr [Value.vNum 1, Value.vNum 2, Value.vNull] := by
  refine ⟨?_, rfl, rfl⟩
  obtain ⟨ctx1, h1, h2, h3, h4, h5⟩ :=
    property_array_mapping (initContext (Value.vArr itemsD) cfgReturnNull) (strL "id")
      itemsD rfl rfl
  have hbad := h4 rfl
  have hres := h2 (by exact List.cons_ne_nil _ _) rfl
  rw [hbad] at hres
  exact hres.trans rfl

/-! ## C5: matchProp with an invalid pattern -/

/-- The validation-kind error built by `matchPropCommand` for an invalid
pattern. -/
def invalidRegexErr (pattern : JStr) : SSError :=
  ErrorFactory.validation (strL "Invalid regex pattern: " ++ pattern)

/-- **C5 (amended)**: for an invalid pattern, in the two non-throw modes
the recorded soft error is of the validation kind and the stage resolves to
null / the configured default exactly like other stage errors; in throw
mode the handler throws the validation-kind error, but
`CommandRegistry.execute` catches it and rethrows an execution-kind wrapper
carrying the original message, so the error surfaced to the caller in
throw mode is of the execution kind, not the validation kind. -/
theorem matchProp_invalid_pattern_error_kind :
  ∀ (rx : RegexOracle) (ctx : ExecutionContext) (propertyName pattern : JStr),
    rx.valid pattern = false →
    (((invalidRegexErr pattern).code = ErrCode.VALIDATION_ERROR) ∧
     (ctx.config.errorHandling = ErrMode.throwMode →
       matchPropExecute rx ctx propertyName pattern = .error (invalidRegexErr pattern) ∧
       registryExecute (builtinRegistry rx) (strL "matchProp") ctx
           [.str propertyName, .str pattern] =
         .error (ErrorFactory.execution
           (strL "Error executing command " ++ strL "matchProp" ++ strL ": " ++
            (invalidRegexErr pattern).message)) ∧
       (ErrorFactory.execution
           (strL "Error executing command " ++ strL "matchProp" ++ strL ": " ++
            (invalidRegexErr pattern).message)).code = ErrCode.EXECUTION_ERROR) ∧
     (ctx.config.errorHandling ≠ ErrMode.throwMode → ctx.hadSoftError = false →
       matchPropExecute rx ctx propertyName pattern =
         .ok (resolveVal ctx,
              { ctx with
                hadSoftError := true
                softError := some (invalidRegexErr pattern) }) ∧
       registryExecute (builtinRegistry rx) (strL "matchProp") ctx
           [.str propertyName, .str pattern] =
         .ok (resolveVal ctx,
              { ctx with
                hadSoftError := true
                softError := some (invalidRegexErr pattern) }))) := by
  intro rx ctx propertyName pattern hinvalid
  refine ⟨rfl, ?_, ?_⟩
  · intro hmode
    have h1 : matchPropExecute rx ctx propertyName pattern = .error (invalidRegexErr pattern) := by
      simp [matchPropExecute, hinvalid, hmode, invalidRegexErr]
    refine ⟨h1, ?_, rfl⟩
    simp only [registryExecute, builtinRegistry, regRegister, regLookup, List.find?]
    simp [matchPropCommand, h1]
  · intro hmode hfresh
    have h1 : matchPropExecute rx ctx propertyName pattern =
        .ok (resolveVal ctx,
             { ctx with
               hadSoftError := true
               softError := some (invalidRegexErr pattern) }) := by
      simp [matchPropExecute, hinvalid, hmode, recordOnly, hfresh, invalidRegexErr]
    refine ⟨h1, ?_⟩
    simp only [registryExecute, builtinRegistry, regRegister, regLookup, List.find?]
    simp [matchPropCommand, h1]

/-- Counterexample for C5 as stated: in throw mode the error surfaced to
the caller is the execution-kind wrapper produced by
`CommandRegistry.execute`, not the validation kind the claim promises for
the thrown error; the same execution-kind error is what
`ExecutionEngine.execute` reports. -/
theorem matchProp_throw_mode_counterexample :
  registryExecute (builtinRegistry rxFalse) (strL "matchProp")
      (initContext (Value.vObj []) cfgThrow) [.str (strL "a"), .str (strL "(")] =
    .error ⟨ErrCode.EXECUTION_ERROR,
            strL "Error executing command matchProp: Invalid regex pattern: ("⟩ ∧
  (engineExecute (builtinRegistry rxFalse)
      [Command.function (strL "matchProp") [strL "a", strL "("]]
      (Value.vObj []) cfgThrow (mkCache none) 0).1.error =
    some ⟨ErrCode.EXECUTION_ERROR,
          strL "Error executing command matchProp: Invalid regex pattern: ("⟩ ∧
  ErrCode.EXECUTION_ERROR ≠ ErrCode.VALIDATION_ERROR := by
  exact ⟨rfl, rfl, by decide⟩

/-- Witness for C5's amended claim: in `return-default` mode the recorded
soft error is validation-kind and the stage resolves to the configured
default; in throw mode the handler itself throws the validation-kind
error. -/
theorem matchProp_invalid_pattern_error_kind_witness :
  matchPropExecute rxFalse (initContext (Value.vObj []) cfgReturnDefault)
      (strL "a") (strL "(") =
    .ok (Value.vStr (strL "N/A"),
         { initContext (Value.vObj []) cfgReturnDefault with
           hadSoftError := true
           softError := some (invalidRegexErr (strL "(")) }) ∧
  matchPropExecute rxFalse (initContext (Value.vObj []) cfgThrow)
      (strL "a") (strL "(") = .error (invalidRegexErr (strL "(")) := by
  constructor
  · have h := ((matchProp_invalid_pattern_error_kind rxFalse
      (initContext (Value.vObj []) cfgReturnDefault) (strL "a") (strL "(") rfl).2.2
      (by decide) rfl).1
    exact h.trans rfl
  · exact ((matchProp_invalid_pattern_error_kind rxFalse
      (initContext (Value.vObj []) cfgThrow) (strL "a") (strL "(") rfl).2.1 rfl).1

/-! ## C3: Invocation dispatch — natives before the registry -/

/-- The soft error recorded when neither a native method nor a registered
handler exists. -/
def unknownCmdErr (name : JStr) : SSError :=
  ErrorFactory.execution (strL "Unknown method or command: " ++ name)

theorem isNativeMethod_spec (v : Value) (name : JStr) :
    isNativeMethod v name = true →
    ∃ props f, v = Value.vObj props ∧ lookupProp props name = some (Value.vFun f) := by
  intro h
  cases v
  case vObj props =>
    revert h
    simp only [isNativeMethod]
    cases hlk : lookupProp props name with
    | none => intro h; exact absurd h (by simp)
    | some w =>
      cases w
      case vFun f => intro _; exact ⟨props, f, rfl, hlk⟩
      all_goals (intro h; exact absurd h (by simp))
  all_goals exact absurd h (by simp [isNativeMethod])

/-- **C3**: an Invocation on a non-null, non-undefined current value first
checks for a native function-valued member of that name: if present, the
native is called directly on the coerced arguments and the result is
independent of the registry (a registered handler of the same name cannot
shadow it); only without a native does dispatch fall through to the
registry; with neither, a soft unknown-command error is recorded and the
stage resolves per the error-handling mode.  The textual-argument coercion
sends `true`/`false` to booleans, accepted numeric text to numbers, and
everything else through as the string itself. -/
theorem invocation_native_priority :
  (∀ (reg : Registry) (ctx : ExecutionContext) (name : JStr) (args : List JStr),
    isNull ctx.currentValue = false →
    isUndef ctx.currentValue = false →
    ((isNativeMethod ctx.currentValue name = true →
       executeCommand reg (.function name args) ctx =
         .ok (executeNativeMethod ctx.currentValue name args, ctx) ∧
       (∃ props f, ctx.currentValue = Value.vObj props ∧
          lookupProp props name = some (Value.vFun f) ∧
          executeNativeMethod ctx.currentValue name args = f (args.map convertNativeArg))) ∧
     (isNativeMethod ctx.currentValue name = false → regHas reg name = true →
       executeCommand reg (.function name args) ctx =
         registryExecute reg name ctx (args.map Arg.str)) ∧
     (isNativeMethod ctx.currentValue name = false → regHas reg name = false →
      ctx.hadSoftError = false →
      ((ctx.config.errorHandling ≠ ErrMode.throwMode →
         executeCommand reg (.function name args) ctx =
           .ok (resolveVal ctx,
                { ctx with
                  hadSoftError := true
                  softError := some (unknownCmdErr name) })) ∧
       (ctx.config.errorHandling = ErrMode.throwMode →
         executeCommand reg (.function name args) ctx = .error (unknownCmdErr name)))))) ∧
  (convertNativeArg (strL "true") = .pBool true) ∧
  (convertNativeArg (strL "false") = .pBool false) ∧
  (∀ (s : JStr) (q : Rat), s ≠ strL "true" → s ≠ strL "false" → jsNumberQ s = some q →
     convertNativeArg s = .pNum q) ∧
  (∀ s : JStr, s ≠ strL "true" → s ≠ strL "false" → jsNumberQ s = none →
     convertNativeArg s = .pStr s) := by
  refine ⟨?_, rfl, rfl, ?_, ?_⟩
  · intro reg ctx name args hnull hundef
    refine ⟨?_, ?_, ?_⟩
    · intro hnat
      obtain ⟨props, f, hv, hlk⟩ := isNativeMethod_spec ctx.currentValue name hnat
      rw [hv] at hnat
      constructor
      · simp only [executeCommand, hv, hnat]
        simp
      · exact ⟨props, f, hv, hlk, by simp [executeNativeMethod, hv, hlk]⟩
    · intro hnat hreg
      cases hcv : ctx.currentValue
      case vNull => rw [hcv] at hnull; exact absurd hnull (by simp [isNull])
      case vUndefined => rw [hcv] at hundef; exact absurd hundef (by simp [isUndef])
      all_goals (rw [hcv] at hnat; simp [executeCommand, hcv, hnat, hreg])
    · intro hnat hreg hfresh
      cases hcv : ctx.currentValue
      case vNull => rw [hcv] at hnull; exact absurd hnull (by simp [isNull])
      case vUndefined => rw [hcv] at hundef; exact absurd hundef (by simp [isUndef])
      all_goals
        (rw [hcv] at hnat;
         exact
          ⟨fun hmode => by
            simp [executeCommand, hcv, hnat, hreg, softRecord, hfresh, hmode, unknownCmdErr],
           fun hmode => by
            simp [executeCommand, hcv, hnat, hreg, softRecord, hfresh, hmode, unknownCmdErr]⟩)
  · intro s q htrue hfalse hnum
    simp [convertNativeArg, htrue, hfalse, hnum]
  · intro s htrue hfalse hnum
    simp [convertNativeArg, htrue, hfalse, hnum]

/-- Witness for C3: a value exposing a native `concat` member is invoked
directly even though a handler named `concat` is registered (and coercion
turns `true` / `3` / `abc` into a boolean, a number and a string); without
the native member dispatch reaches the registered handler; with neither, an
unknown-command soft error resolves to null. -/
theorem invocation_native_priority_witness :
  (executeCommand
      (regRegister (builtinRegistry rxTrue) (strL "concat")
        ⟨fun ctx _ => .ok (Value.vStr (strL "shadowed"), ctx),
         none⟩)
      (.function (strL "concat") [strL "true", strL "3", strL "abc"])
      (initContext (Value.vObj [(strL "concat",
        Value.vFun (fun ps => Value.vArr (ps.map (fun p =>
          match p with
          | .pBool b => Value.vBool b
          | .pNum q => Value.vNum q
          | .pStr s => Value.vStr s))))]) cfgReturnNull) =
    .ok (Value.vArr [Value.vBool true, Value.vNum 3, Value.vStr (strL "abc")],
         initContext (Value.vObj [(strL "concat",
           Value.vFun (fun ps => Value.vArr (ps.map (fun p =>
             match p with
             | .pBool b => Value.vBool b
             | .pNum q => Value.vNum q
             | .pStr s => Value.vStr s))))]) cfgReturnNull)) ∧
  (executeCommand (builtinRegistry rxTrue)
      (.function (strL "getProp") [strL "id"])
      (initContext (Value.vObj [(strL "id", Value.vNum 7)]) cfgReturnNull) =
    registryExecute (builtinRegistry rxTrue) (strL "getProp")
      (initContext (Value.vObj [(strL "id", Value.vNum 7)]) cfgReturnNull)
      [.str (strL "id")]) ∧
  (executeCommand (builtinRegistry rxTrue)
      (.function (strL "nosuch") [])
      (initContext (Value.vObj []) cfgReturnNull) =
    .ok (Value.vNull,
         { initContext (Value.vObj []) cfgReturnNull with
           hadSoftError := true
           softError := some (unknownCmdErr (strL "nosuch")) })) := by
  refine ⟨?_, ?_, ?_⟩
  · have h := ((invocation_native_priority.1
      (regRegister (builtinRegistry rxTrue) (strL "concat")
        ⟨fun ctx _ => .ok (Value.vStr (strL "shadowed"), ctx), none⟩)
      (initContext (Value.vObj [(strL "concat",
        Value.vFun (fun ps => Value.vArr (ps.map (fun p =>
          match p with
          | .pBool b => Value.vBool b
          | .pNum q => Value.vNum q
          | .pStr s => Value.vStr s))))]) cfgReturnNull)
      (strL "concat") [strL "true", strL "3", strL "abc"] rfl rfl).1 rfl).1
    exact h.trans (by rfl)
  · exact ((invocation_native_priority.1 (builtinRegistry rxTrue)
      (initContext (Value.vObj [(strL "id", Value.vNum 7)]) cfgReturnNull)
      (strL "getProp") [strL "id"] rfl rfl).2.1 rfl rfl)
  · have h := (((invocation_native_priority.1 (builtinRegistry rxTrue)
      (initContext (Value.vObj []) cfgReturnNull)
      (strL "nosuch") [] rfl rfl).2.2 rfl rfl rfl).1 (by decide))
    exact h.trans (by rfl)

/-! ## C2: reported outcome on the no-throw path -/

/-- **C2**: when the pipeline runs to completion without an uncaught throw
(and the error-handling mode is not throw; caching disabled so the run is
not short-circuited by a cache hit), the reported `success` flag is exactly
the negation of the context's `hadSoftError` flag, the reported value is
the value the pipeline computed (post default/null substitution), and the
reported error is the recorded first soft error (if any) — so a result can
combine `success = false` with a non-null value. -/
theorem engine_success_flag_and_value :
  ∀ (reg : Registry) (commands : List Command) (element : Value) (config : Config)
    (cache : Cache) (now : Nat) (v : Value) (ctx1 : ExecutionContext),
    config.errorHandling ≠ ErrMode.throwMode →
    config.cacheEnabled = false →
    executeCommands reg commands (initContext element config) 0 = .ok (v, ctx1) →
    ((engineExecute reg commands element config cache now).1.success = !ctx1.hadSoftError ∧
     (engineExecute reg commands element config cache now).1.value = v ∧
     (engineExecute reg commands element config cache now).1.error =
       (if ctx1.hadSoftError then ctx1.softError else none)) := by
  intro reg commands element config cache now v ctx1 hmode hcache hrun
  simp [engineExecute, hcache, executeRun, hrun]

/-- Witness for C2: `property(id)` over `[{id:1},{id:2},{}]` ends without a
throw, reports `success = false` because of the recorded soft error, and
still carries the computed non-null value `[1, 2, null]`. -/
theorem engine_success_flag_and_value_witness :
  (engineExecute (builtinRegistry rxTrue) [Command.property (strL "id")]
      (Value.vArr itemsD) cfgReturnNull (mkCache none) 0).1.success = false ∧
  (engineExecute (builtinRegistry rxTrue) [Command.property (strL "id")]
      (Value.vArr itemsD) cfgReturnNull (mkCache none) 0).1.value =
    Value.vArr [Value.vNum 1, Value.vNum 2, Value.vNull] ∧
  isNull (engineExecute (builtinRegistry rxTrue) [Command.property (strL "id")]
      (Value.vArr itemsD) cfgReturnNull (mkCache none) 0).1.value = false := by
  have h := engine_success_flag_and_value (builtinRegistry rxTrue)
    [Command.property (strL "id")] (Value.vArr itemsD) cfgReturnNull (mkCache none) 0
    (Value.vArr [Value.vNum 1, Value.vNum 2, Value.vNull])
    ⟨Value.vArr itemsD, Value.vArr itemsD, cfgReturnNull, true, some (arrPropErr (strL "id"))⟩
    (by decide) rfl rfl
  exact ⟨h.1.trans rfl, h.2.1, by rw [h.2.1]; rfl⟩

/-! ## C9: the first recorded soft error is never replaced -/

theorem cssSelectorExecute_ok_ctx (ctx : ExecutionContext) (s : JStr) (v : Value)
    (ctx' : ExecutionContext) (hok : cssSelectorExecute ctx s = .ok (v, ctx')) :
    ctx' = ctx := by
  cases hcv : ctx.currentValue <;> simp [cssSelectorExecute, hcv] at hok <;>
    exact hok.2.symm

theorem propertyExecute_preserves (ctx : ExecutionContext) (p : JStr) (v : Value)
    (ctx' : ExecutionContext) (hhad : ctx.hadSoftError = true)
    (hok : propertyExecute ctx p = .ok (v, ctx')) : ctx' = ctx := by
  cases hcv : ctx.currentValue <;>
    simp [propertyExecute, hcv, softRecord, recordOnly, hhad] at hok <;>
    (try split at hok) <;> (try simp at hok) <;>
    (try split at hok) <;> (try simp at hok) <;>
    (try split at hok) <;> (try simp at hok) <;>
    first
      | exact hok.2.symm
      | exact hok.symm

theorem arrayAccessExecute_preserves (ctx : ExecutionContext) (i : Int) (v : Value)
    (ctx' : ExecutionContext) (hhad : ctx.hadSoftError = true)
    (hok : arrayAccessExecute ctx i = .ok (v, ctx')) : ctx' = ctx := by
  cases hcv : ctx.currentValue <;>
    simp [arrayAccessExecute, hcv, softRecord, hhad] at hok <;>
    (try split at hok) <;> (try simp at hok) <;>
    (try split at hok) <;> (try simp at hok) <;>
    (try split at hok) <;> (try simp at hok) <;>
    first
      | exact hok.2.symm
      | exact hok.symm

theorem recursivePropStep_preserves (p : JStr) :
    ∀ (n i : Nat) (current : Value) (ctx : ExecutionContext) (v : Value)
      (ctx' : ExecutionContext), ctx.hadSoftError = true →
      recursivePropStep p n i current ctx = .ok (v, ctx') → ctx' = ctx := by
  intro n
  induction n with
  | zero =>
    intro i current ctx v ctx' hhad hok
    simp [recursivePropStep] at hok
    exact hok.2.symm
  | succ m ih =>
    intro i current ctx v ctx' hhad hok
    simp only [recursivePropStep] at hok
    by_cases hc : canStepProp p current = true
    · rw [if_pos hc] at hok
      exact ih (i + 1) (getPropJS current p) ctx v ctx' hhad hok
    · rw [if_neg hc] at hok
      simp [softRecord, hhad] at hok
      split at hok
      · simp at hok
      · simp at hok
        exact hok.2.symm

theorem recursivePropExecute_preserves (ctx : ExecutionContext) (p : JStr) (t : Arg)
    (v : Value) (ctx' : ExecutionContext) (hhad : ctx.hadSoftError = true)
    (hok : recursivePropExecute ctx p t = .ok (v, ctx')) : ctx' = ctx := by
  cases htv : timesVal t with
  | none =>
    simp [recursivePropExecute, htv] at hok
    exact hok.2.symm
  | some k =>
    by_cases hk : k ≤ 0
    · simp [recursivePropExecute, htv, hk] at hok
      exact hok.2.symm
    · simp only [recursivePropExecute, htv] at hok
      rw [if_neg hk] at hok
      exact recursivePropStep_preserves p k.toNat 0 ctx.currentValue ctx v ctx' hhad hok

theorem filterPropExecute_preserves (check : JStr → Bool) (label : JStr)
    (ctx : ExecutionContext) (p : JStr) (v : Value) (ctx' : ExecutionContext)
    (hhad : ctx.hadSoftError = true)
    (hok : filterPropExecute check label ctx p = .ok (v, ctx')) : ctx' = ctx := by
  cases hcv : ctx.currentValue <;>
    simp [filterPropExecute, hcv, softRecord, recordOnly, hhad] at hok <;>
    (try split at hok) <;> (try simp at hok) <;>
    (try split at hok) <;> (try simp at hok) <;>
    (try split at hok) <;> (try simp at hok) <;>
    first
      | exact hok.2.symm
      | exact hok.symm

theorem matchPropExecute_preserves (rx : RegexOracle) (ctx : ExecutionContext)
    (p pat : JStr) (v : Value) (ctx' : ExecutionContext)
    (hhad : ctx.hadSoftError = true)
    (hok : matchPropExecute rx ctx p pat = .ok (v, ctx')) : ctx' = ctx := by
  simp only [matchPropExecute] at hok
  by_cases hval : rx.valid pat = true
  · rw [hval] at hok
    simp only [Bool.not_true] at hok
    rw [if_neg (by simp)] at hok
    exact filterPropExecute_preserves _ _ ctx p v ctx' hhad hok
  · have hval' : rx.valid pat = false := by revert hval; cases rx.valid pat <;> simp
    rw [hval'] at hok
    simp [recordOnly, hhad] at hok
    split at hok
    · simp at hok
    · simp at hok
      exact hok.2.symm

theorem builtin_handler_preserves (rx : RegexOracle) :
    ∀ (name : JStr) (h : CommandHandler),
      regLookup (builtinRegistry rx) name = some h →
      ∀ (ctx : ExecutionContext) (args : List Arg) (v : Value) (ctx' : ExecutionContext),
        ctx.hadSoftError = true → h.execute ctx args = .ok (v, ctx') → ctx' = ctx := by
  intro name h hlk ctx args v ctx' hhad hok
  have hmem : (name, h) ∈ builtinRegistry rx := by
    simp only [regLookup, Option.map_eq_some'] at hlk
    obtain ⟨pr, hfind, hpr2⟩ := hlk
    have hmem0 : pr ∈ builtinRegistry rx := List.mem_of_find?_eq_some hfind
    have hname := List.find?_some hfind
    cases pr with
    | mk a b =>
      simp only [beq_iff_eq] at hname
      simp only at hpr2
      rw [hname, hpr2] at hmem0
      exact hmem0
  simp only [builtinRegistry, regRegister, List.mem_cons, List.mem_singleton,
    Prod.mk.injEq, List.not_mem_nil, or_false] at hmem
  rcases hmem with ⟨_, rfl⟩ | ⟨_, rfl⟩ | ⟨_, rfl⟩ | ⟨_, rfl⟩ | ⟨_, rfl⟩ | ⟨_, rfl⟩ |
    ⟨_, rfl⟩ | ⟨_, rfl⟩ | ⟨_, rfl⟩
  · simp only [matchPropCommand] at hok
    split at hok
    · exact matchPropExecute_preserves rx ctx _ _ v ctx' hhad hok
    · simp at hok
  · simp only [propIncludesLowercaseCommand] at hok
    split at hok
    · exact filterPropExecute_preserves _ _ ctx _ v ctx' hhad hok
    · simp at hok
  · simp only [propIncludesCommand] at hok
    split at hok
    · exact filterPropExecute_preserves _ _ ctx _ v ctx' hhad hok
    · simp at hok
  · simp only [recursivePropCommand] at hok
    split at hok
    · exact recursivePropExecute_preserves ctx _ _ v ctx' hhad hok
    · exact recursivePropExecute_preserves ctx _ _ v ctx' hhad hok
    · simp at hok
  · simp only [getPropCommand] at hok
    split at hok
    · exact propertyExecute_preserves ctx _ v ctx' hhad hok
    · simp at hok
  · simp only [getPropCommand] at hok
    split at hok
    · exact propertyExecute_preserves ctx _ v ctx' hhad hok
    · simp at hok
  · simp only [arrayAccessCommand] at hok
    split at hok
    · exact arrayAccessExecute_preserves ctx _ v ctx' hhad hok
    · simp at hok
  · simp only [propertyCommand] at hok
    split at hok
    · exact propertyExecute_preserves ctx _ v ctx' hhad hok
    · simp at hok
  · simp only [cssSelectorCommand] at hok
    split at hok
    · exact cssSelectorExecute_ok_ctx ctx _ v ctx' hok
    · simp at hok

theorem registryExecute_preserves (rx : RegexOracle) (name : JStr)
    (ctx : ExecutionContext) (args : List Arg) (v : Value) (ctx' : ExecutionContext)
    (hhad : ctx.hadSoftError = true)
    (hok : registryExecute (builtinRegistry rx) name ctx args = .ok (v, ctx')) :
    ctx' = ctx := by
  cases hlk : regLookup (builtinRegistry rx) name with
  | none => simp [registryExecute, hlk] at hok
  | some h =>
    simp only [registryExecute, hlk] at hok
    split at hok
    · simp at hok
    · cases hex : h.execute ctx args with
      | error e => rw [hex] at hok; simp at hok
      | ok r =>
        rw [hex] at hok
        simp only [Except.ok.injEq] at hok
        rw [hok] at hex
        exact builtin_handler_preserves rx name h hlk ctx args v ctx' hhad hex

theorem executeCommand_preserves (rx : RegexOracle) (cmd : Command) (ctx : ExecutionContext)
    (v : Value) (ctx' : ExecutionContext) (hhad : ctx.hadSoftError = true)
    (hok : executeCommand (builtinRegistry rx) cmd ctx = .ok (v, ctx')) : ctx' = ctx := by
  cases cmd with
  | cssSelector s =>
    simp only [executeCommand] at hok
    exact registryExecute_preserves rx _ ctx _ v ctx' hhad hok
  | property n =>
    simp only [executeCommand] at hok
    exact registryExecute_preserves rx _ ctx _ v ctx' hhad hok
  | arrayAccess i =>
    simp only [executeCommand] at hok
    exact registryExecute_preserves rx _ ctx _ v ctx' hhad hok
  | function n args =>
    cases hcv : ctx.currentValue
    case vNull =>
      simp [executeCommand, hcv, softRecord, hhad] at hok
      split at hok <;> (try simp at hok) <;> exact hok.2.symm
    case vUndefined =>
      simp [executeCommand, hcv, softRecord, hhad] at hok
      split at hok <;> (try simp at hok) <;> exact hok.2.symm
    all_goals
      (simp only [executeCommand, hcv] at hok
       split at hok <;>
         first
           | (simp at hok; exact hok.2.symm)
           | (split at hok <;>
               first
                 | exact registryExecute_preserves rx n ctx _ v ctx' hhad hok
                 | (simp [softRecord, hhad] at hok
                    split at hok <;> (try simp at hok) <;>
                    first
                      | exact hok.2.symm
                      | exact hok.symm)))

theorem executeCommandsLoop_preserves (rx : RegexOracle) :
    ∀ (cmds : List Command) (current : Value) (ctx : ExecutionContext) (v : Value)
      (ctx' : ExecutionContext), ctx.hadSoftError = true →
      executeCommandsLoop (builtinRegistry rx) cmds current ctx = .ok (v, ctx') →
      ctx'.hadSoftError = true ∧ ctx'.softError = ctx.softError := by
  intro cmds
  induction cmds with
  | nil =>
    intro current ctx v ctx' hhad hok
    simp [executeCommandsLoop] at hok
    rw [← hok.2]
    exact ⟨hhad, rfl⟩
  | cons cmd rest ih =>
    intro current ctx v ctx' hhad hok
    simp only [executeCommandsLoop] at hok
    cases hex : executeCommand (builtinRegistry rx) cmd { ctx with currentValue := current } with
    | error e => rw [hex] at hok; simp at hok
    | ok r =>
      obtain ⟨w, ctx1⟩ := r
      have hctx1 : ctx1 = { ctx with currentValue := current } :=
        executeCommand_preserves rx cmd { ctx with currentValue := current } w ctx1 hhad hex
      have hhad1 : ctx1.hadSoftError = true := by rw [hctx1]; exact hhad
      have hcond : (isUndef w && !ctx1.hadSoftError && !rest.isEmpty) = false := by
        simp [hhad1]
      rw [hex] at hok
      simp only [hcond] at hok
      simp at hok
      obtain ⟨h1, h2⟩ := ih w ctx1 v ctx' hhad1 hok
      refine ⟨h1, h2.trans ?_⟩
      rw [hctx1]

/-- **C9**: once the context's `hadSoftError` flag is true, every built-in
handler (and the engine's undefined-result promotion) leaves the stored
first error object in place — a run of any command list from a context that
already carries a soft error ends with the same `softError` — and the
reported outcome carries exactly that first soft error. -/
theorem first_soft_error_retained :
  (∀ (rx : RegexOracle) (cmds : List Command) (ctx : ExecutionContext) (depth : Int)
     (v : Value) (ctx1 : ExecutionContext),
     ctx.hadSoftError = true →
     executeCommands (builtinRegistry rx) cmds ctx depth = .ok (v, ctx1) →
     ctx1.hadSoftError = true ∧ ctx1.softError = ctx.softError) ∧
  (∀ (rx : RegexOracle) (commands : List Command) (element : Value) (config : Config)
     (cache : Cache) (now : Nat) (cacheKey : JStr) (v : Value) (ctx1 : ExecutionContext),
     executeCommands (builtinRegistry rx) commands (initContext element config) 0 = .ok (v, ctx1) →
     (executeRun (builtinRegistry rx) commands element config cache now cacheKey).1.error =
       (if ctx1.hadSoftError then ctx1.softError else none)) := by
  constructor
  · intro rx cmds ctx depth v ctx1 hhad hok
    simp only [executeCommands] at hok
    split at hok
    · simp at hok
    · exact executeCommandsLoop_preserves rx cmds ctx.currentValue ctx v ctx1 hhad hok
  · intro rx commands element config cache now cacheKey v ctx1 hrun
    simp [executeRun, hrun]

/-- A context that already carries a recorded first soft error. -/
def errFirst : SSError := ErrorFactory.execution (strL "first error")

def ctxE : ExecutionContext := ⟨Value.vNull, Value.vNull, cfgReturnNull, true, some errFirst⟩

/-- Witness for C9: running two further faulting property stages from a
context already carrying `errFirst` leaves `errFirst` stored; and a run
that records its own first soft error reports exactly that error. -/
theorem first_soft_error_retained_witness :
  executeCommands (builtinRegistry rxTrue)
      [Command.property (strL "a"), Command.property (strL "b")] ctxE 0 =
    .ok (Value.vNull, ctxE) ∧
  ctxE.softError = some errFirst ∧
  (executeRun (builtinRegistry rxTrue) [Command.property (strL "missing")]
      (Value.vObj []) cfgReturnNull (mkCache none) 0 (strL "k")).1.error =
    some (ErrorFactory.execution (strL "Property missing not found on target object.")) := by
  refine ⟨rfl, ?_, ?_⟩
  · exact ((first_soft_error_retained.1 rxTrue
      [Command.property (strL "a"), Command.property (strL "b")] ctxE 0
      Value.vNull ctxE rfl rfl).2).trans rfl
  · have h := first_soft_error_retained.2 rxTrue [Command.property (strL "missing")]
      (Value.vObj []) cfgReturnNull (mkCache none) 0 (strL "k") Value.vNull
      { initContext (Value.vObj []) cfgReturnNull with
        hadSoftError := true
        softError := some (ErrorFactory.execution
          (strL "Property missing not found on target object.")) } rfl
    exact h.trans rfl

/-! ## C8: parse never throws; unmatched parens / unterminated quotes -/

def eofTok : Token := ⟨.EOF, []⟩

/-- Number of tokens of a given type in a stream. -/
def countTy (ty : TokenType) (ts : List Token) : Nat :=
  (ts.filter (fun t => t.type == ty)).length

theorem countTy_nil (ty : TokenType) : countTy ty [] = 0 := rfl

theorem countTy_cons (ty : TokenType) (t : Token) (ts : List Token) :
    countTy ty (t :: ts) = (if t.type == ty then 1 else 0) + countTy ty ts := by
  simp only [countTy, List.filter]
  cases h : (t.type == ty) <;> simp [h, Nat.add_comm]

theorem countTy_append (ty : TokenType) (a b : List Token) :
    countTy ty (a ++ b) = countTy ty a + countTy ty b := by
  simp [countTy, List.filter_append]

theorem countTy_cons_ne (ty : TokenType) (t : Token) (ts : List Token)
    (h : (t.type == ty) = false) : countTy ty (t :: ts) = countTy ty ts := by
  rw [countTy_cons, h]
  simp

/-- The token emitted by `tokenizeIdentifier` is a function name, CSS
selector or property — never EOF. -/
theorem tokenizeIdentifier_not_eof (cs : JStr) (ts : List Token) :
    ((tokenizeIdentifier cs ts).1.type == TokenType.EOF) = false := by
  cases cs with
  | nil => rfl
  | cons c rest =>
    simp only [tokenizeIdentifier]
    split
    · rfl
    · split <;> rfl

/-- Every successful tokenization is the already-emitted tokens, a body of
non-EOF tokens, and a final EOF token. -/
theorem tokenizeLoop_structure :
    ∀ (n : Nat) (cs : JStr) (ts out : List Token),
      tokenizeLoop n cs ts = .ok out →
      ∃ body, out = ts ++ body ++ [eofTok] ∧ countTy .EOF body = 0 := by
  intro n
  induction n with
  | zero => intro cs ts out hok; simp [tokenizeLoop] at hok
  | succ m ih =>
    intro cs ts out hok
    simp only [tokenizeLoop] at hok
    cases hdw : List.dropWhile isWsChar cs with
    | nil =>
      rw [hdw] at hok
      simp at hok
      exact ⟨[], by simp [← hok, eofTok], rfl⟩
    | cons c rest =>
      rw [hdw] at hok
      simp only [] at hok
      by_cases h1 : (c == '|') = true
      · rw [if_pos h1] at hok
        obtain ⟨body, hout, hcnt⟩ := ih _ _ out hok
        refine ⟨⟨.PIPE, [c]⟩ :: body, by rw [hout]; simp, ?_⟩
        rw [countTy_cons_ne _ _ _ (by rfl)]
        exact hcnt
      · rw [if_neg h1] at hok
        by_cases h2 : (c == '(') = true
        · rw [if_pos h2] at hok
          obtain ⟨body, hout, hcnt⟩ := ih _ _ out hok
          refine ⟨⟨.OPEN_PAREN, [c]⟩ :: body, by rw [hout]; simp, ?_⟩
          rw [countTy_cons_ne _ _ _ (by rfl)]
          exact hcnt
        · rw [if_neg h2] at hok
          by_cases h3 : (c == ')') = true
          · rw [if_pos h3] at hok
            obtain ⟨body, hout, hcnt⟩ := ih _ _ out hok
            refine ⟨⟨.CLOSE_PAREN, [c]⟩ :: body, by rw [hout]; simp, ?_⟩
            rw [countTy_cons_ne _ _ _ (by rfl)]
            exact hcnt
          · rw [if_neg h3] at hok
            by_cases h4 : (c == '[') = true
            · rw [if_pos h4] at hok
              obtain ⟨body, hout, hcnt⟩ := ih _ _ out hok
              refine ⟨⟨.OPEN_BRACKET, [c]⟩ :: body, by rw [hout]; simp, ?_⟩
              rw [countTy_cons_ne _ _ _ (by rfl)]
              exact hcnt
            · rw [if_neg h4] at hok
              by_cases h5 : (c == ']') = true
              · rw [if_pos h5] at hok
                obtain ⟨body, hout, hcnt⟩ := ih _ _ out hok
                refine ⟨⟨.CLOSE_BRACKET, [c]⟩ :: body, by rw [hout]; simp, ?_⟩
                rw [countTy_cons_ne _ _ _ (by rfl)]
                exact hcnt
              · rw [if_neg h5] at hok
                by_cases h6 : (c == ',') = true
                · rw [if_pos h6] at hok
                  obtain ⟨body, hout, hcnt⟩ := ih _ _ out hok
                  refine ⟨⟨.COMMA, [c]⟩ :: body, by rw [hout]; simp, ?_⟩
                  rw [countTy_cons_ne _ _ _ (by rfl)]
                  exact hcnt
                · rw [if_neg h6] at hok
                  by_cases h7 : (c == '"' || c == '\'') = true
                  · rw [if_pos h7] at hok
                    cases hstr : tokenizeStringBody c rest [] with
                    | error e => rw [hstr] at hok; simp at hok
                    | ok p =>
                      rw [hstr] at hok
                      obtain ⟨body, hout, hcnt⟩ := ih _ _ out hok
                      refine ⟨⟨.STRING, p.1⟩ :: body, by rw [hout]; simp, ?_⟩
                      rw [countTy_cons_ne _ _ _ (by rfl)]
                      exact hcnt
                  · rw [if_neg h7] at hok
                    split at hok
                    · obtain ⟨body, hout, hcnt⟩ := ih _ _ out hok
                      refine ⟨⟨.NUMBER, (tokenizeNumber (c :: rest)).1⟩ :: body,
                        by rw [hout]; simp, ?_⟩
                      rw [countTy_cons_ne _ _ _ (by rfl)]
                      exact hcnt
                    · split at hok
                      · obtain ⟨body, hout, hcnt⟩ := ih _ _ out hok
                        refine ⟨(tokenizeIdentifier (c :: rest) ts).1 :: body,
                          by rw [hout]; simp, ?_⟩
                        rw [countTy_cons_ne _ _ _ (tokenizeIdentifier_not_eof _ _)]
                        exact hcnt
                      · simp at hok

theorem countTy_cons_eq (ty : TokenType) (t : Token) (ts : List Token)
    (h : (t.type == ty) = true) : countTy ty (t :: ts) = countTy ty ts + 1 := by
  rw [countTy_cons, h]
  simp [Nat.add_comm]

theorem tokMatch_spec (ts : List Token) (ty : TokenType) (h : tokMatch ts ty = true) :
    ∃ t tail, ts = t :: tail ∧ t.type = ty := by
  cases ts with
  | nil => simp [tokMatch] at h
  | cons t tail =>
    simp [tokMatch] at h
    exact ⟨t, tail, rfl, h⟩

theorem parseArgument_spec (ts : List Token) (a : JStr) (ts' : List Token)
    (h : parseArgument ts = .ok (a, ts')) :
    ∃ t, ts = t :: ts' ∧ t.type ≠ TokenType.OPEN_PAREN ∧
      t.type ≠ TokenType.CLOSE_PAREN ∧ t.type ≠ TokenType.EOF := by
  cases ts with
  | nil => simp [parseArgument] at h
  | cons t tail =>
    simp only [parseArgument] at h
    by_cases h1 : (t.type == TokenType.STRING || t.type == TokenType.NUMBER) = true
    · rw [if_pos h1] at h
      simp at h
      simp at h1
      rcases h1 with hty | hty <;>
        exact ⟨t, by rw [h.2], by rw [hty]; decide, by rw [hty]; decide, by rw [hty]; decide⟩
    · rw [if_neg h1] at h
      by_cases h2 : (t.type == TokenType.PROPERTY) = true
      · rw [if_pos h2] at h
        simp at h
        simp at h2
        exact ⟨t, by rw [h.2], by rw [h2]; decide, by rw [h2]; decide, by rw [h2]; decide⟩
      · rw [if_neg h2] at h
        simp at h

theorem parseFnArgs_spec :
    ∀ (n : Nat) (ts : List Token) (acc args : List JStr) (ts' : List Token),
      parseFnArgs n ts acc = .ok (args, ts') →
      countTy .OPEN_PAREN ts = countTy .OPEN_PAREN ts' ∧
      countTy .CLOSE_PAREN ts = countTy .CLOSE_PAREN ts' + 1 ∧
      countTy .EOF ts = countTy .EOF ts' ∧
      ts' <:+ ts := by
  intro n
  induction n with
  | zero => intro ts acc args ts' h; simp [parseFnArgs] at h
  | succ m ih =>
    intro ts acc args ts' h
    simp only [parseFnArgs] at h
    by_cases hcl : tokMatch ts TokenType.CLOSE_PAREN = true
    · rw [if_pos hcl] at h
      simp at h
      obtain ⟨t, tail, rfl, hty⟩ := tokMatch_spec ts TokenType.CLOSE_PAREN hcl
      simp only [List.tail_cons] at h
      rw [← h.2]
      refine ⟨?_, ?_, ?_, List.suffix_cons t tail⟩
      · exact countTy_cons_ne _ _ _ (by rw [hty]; decide)
      · exact countTy_cons_eq _ _ _ (by rw [hty]; decide)
      · exact countTy_cons_ne _ _ _ (by rw [hty]; decide)
    · rw [if_neg hcl] at h
      by_cases hend : tokAtEnd ts = true
      · rw [if_pos hend] at h
        simp at h
      · rw [if_neg hend] at h
        cases harg : parseArgument ts with
        | error e => rw [harg] at h; simp at h
        | ok p =>
          obtain ⟨arg, ts1⟩ := p
          rw [harg] at h
          simp only [] at h
          obtain ⟨t, hts, hno, hnc, hne⟩ := parseArgument_spec ts arg ts1 harg
          by_cases hcm : tokMatch ts1 TokenType.COMMA = true
          · rw [if_pos hcm] at h
            obtain ⟨c, tail1, hts1, hcty⟩ := tokMatch_spec ts1 TokenType.COMMA hcm
            subst hts
            subst hts1
            simp only [List.tail_cons] at h
            obtain ⟨e1, e2, e3, e4⟩ := ih tail1 (acc ++ [arg]) args ts' h
            refine ⟨?_, ?_, ?_, ?_⟩
            · rw [countTy_cons_ne _ _ _ (by simp [hno]),
                 countTy_cons_ne _ _ _ (by rw [hcty]; decide)]
              exact e1
            · rw [countTy_cons_ne _ _ _ (by simp [hnc]),
                 countTy_cons_ne _ _ _ (by rw [hcty]; decide)]
              exact e2
            · rw [countTy_cons_ne _ _ _ (by simp [hne]),
                 countTy_cons_ne _ _ _ (by rw [hcty]; decide)]
              exact e3
            · exact e4.trans ((List.suffix_cons c tail1).trans (List.suffix_cons t (c :: tail1)))
          · rw [if_neg hcm] at h
            by_cases hcl2 : tokMatch ts1 TokenType.CLOSE_PAREN = true
            · rw [if_pos hcl2] at h
              subst hts
              obtain ⟨e1, e2, e3, e4⟩ := ih ts1 (acc ++ [arg]) args ts' h
              refine ⟨?_, ?_, ?_, ?_⟩
              · rw [countTy_cons_ne _ _ _ (by simp [hno])]
                exact e1
              · rw [countTy_cons_ne _ _ _ (by simp [hnc])]
                exact e2
              · rw [countTy_cons_ne _ _ _ (by simp [hne])]
                exact e3
              · exact e4.trans (List.suffix_cons t ts1)
            · rw [if_neg hcl2] at h
              simp at h

theorem parseCommandTok_spec (n : Nat) (ts : List Token) (cmd : Command)
    (ts' : List Token) (h : parseCommandTok n ts = .ok (cmd, ts')) :
    (countTy .OPEN_PAREN ts + countTy .CLOSE_PAREN ts' =
      countTy .CLOSE_PAREN ts + countTy .OPEN_PAREN ts') ∧
    countTy .EOF ts = countTy .EOF ts' ∧
    ts' <:+ ts := by
  cases ts with
  | nil => simp [parseCommandTok] at h
  | cons t rest =>
    simp only [parseCommandTok] at h
    cases hty : t.type
    all_goals rw [hty] at h
    all_goals simp only [] at h
    case CSS_SELECTOR =>
      simp at h
      rw [← h.2]
      rw [countTy_cons_ne _ _ _ (by rw [hty]; decide),
          countTy_cons_ne _ _ _ (by rw [hty]; decide),
          countTy_cons_ne _ _ _ (by rw [hty]; decide)]
      exact ⟨by omega, rfl, List.suffix_cons t rest⟩
    case PROPERTY =>
      simp at h
      rw [← h.2]
      rw [countTy_cons_ne _ _ _ (by rw [hty]; decide),
          countTy_cons_ne _ _ _ (by rw [hty]; decide),
          countTy_cons_ne _ _ _ (by rw [hty]; decide)]
      exact ⟨by omega, rfl, List.suffix_cons t rest⟩
    case FUNCTION_NAME =>
      by_cases hop : tokMatch rest TokenType.OPEN_PAREN = true
      · rw [if_pos hop] at h
        cases hargs : parseFnArgs n rest.tail [] with
        | error e => rw [hargs] at h; simp at h
        | ok p =>
          obtain ⟨args, ts2⟩ := p
          rw [hargs] at h
          simp only [] at h
          simp at h
          obtain ⟨o, tail, hrest, hoty⟩ := tokMatch_spec rest TokenType.OPEN_PAREN hop
          subst hrest
          simp only [List.tail_cons] at hargs
          obtain ⟨e1, e2, e3, e4⟩ := parseFnArgs_spec n tail [] args ts2 hargs
          rw [← h.2]
          rw [countTy_cons_ne TokenType.OPEN_PAREN _ _ (by rw [hty]; decide),
              countTy_cons_ne TokenType.CLOSE_PAREN _ _ (by rw [hty]; decide),
              countTy_cons_ne TokenType.EOF _ _ (by rw [hty]; decide)]
          rw [countTy_cons_eq TokenType.OPEN_PAREN _ _ (by rw [hoty]; decide),
              countTy_cons_ne TokenType.CLOSE_PAREN _ _ (by rw [hoty]; decide),
              countTy_cons_ne TokenType.EOF _ _ (by rw [hoty]; decide)]
          refine ⟨by omega, e3, ?_⟩
          exact e4.trans ((List.suffix_cons o tail).trans (List.suffix_cons t (o :: tail)))
      · rw [if_neg hop] at h
        simp at h
    case OPEN_BRACKET =>
      cases rest with
      | nil => simp at h
      | cons t2 rest2 =>
        simp only [] at h
        by_cases hnum : (t2.type == TokenType.NUMBER) = true
        · rw [if_pos hnum] at h
          cases hint : parseIntJS t2.value with
          | none => rw [hint] at h; simp at h
          | some i =>
            rw [hint] at h
            simp only [] at h
            by_cases hcb : tokMatch rest2 TokenType.CLOSE_BRACKET = true
            · rw [if_pos hcb] at h
              simp at h
              obtain ⟨cb, tail2, hrest2, hcbty⟩ := tokMatch_spec rest2 TokenType.CLOSE_BRACKET hcb
              subst hrest2
              simp only [List.tail_cons] at h
              rw [← h.2]
              simp at hnum
              rw [countTy_cons_ne TokenType.OPEN_PAREN _ _ (by rw [hty]; decide),
                  countTy_cons_ne TokenType.CLOSE_PAREN _ _ (by rw [hty]; decide),
                  countTy_cons_ne TokenType.EOF _ _ (by rw [hty]; decide)]
              rw [countTy_cons_ne TokenType.OPEN_PAREN _ _ (by rw [hnum]; decide),
                  countTy_cons_ne TokenType.CLOSE_PAREN _ _ (by rw [hnum]; decide),
                  countTy_cons_ne TokenType.EOF _ _ (by rw [hnum]; decide)]
              rw [countTy_cons_ne TokenType.OPEN_PAREN _ _ (by rw [hcbty]; decide),
                  countTy_cons_ne TokenType.CLOSE_PAREN _ _ (by rw [hcbty]; decide),
                  countTy_cons_ne TokenType.EOF _ _ (by rw [hcbty]; decide)]
              refine ⟨by omega, rfl, ?_⟩
              exact (List.suffix_cons cb tail2).trans
                ((List.suffix_cons t2 (cb :: tail2)).trans (List.suffix_cons t (t2 :: cb :: tail2)))
            · rw [if_neg hcb] at h
              simp at h
        · rw [if_neg hnum] at h
          simp at h
    all_goals simp at h

theorem parseCommandsTok_spec :
    ∀ (n : Nat) (ts : List Token) (cmds : List Command),
      parseCommandsTok n ts = .ok cmds →
      ∃ ts', tokAtEnd ts' = true ∧ ts' <:+ ts ∧
        (countTy .OPEN_PAREN ts + countTy .CLOSE_PAREN ts' =
          countTy .CLOSE_PAREN ts + countTy .OPEN_PAREN ts') ∧
        countTy .EOF ts = countTy .EOF ts' := by
  intro n
  induction n with
  | zero => intro ts cmds h; simp [parseCommandsTok] at h
  | succ m ih =>
    intro ts cmds h
    simp only [parseCommandsTok] at h
    by_cases hend : tokAtEnd ts = true
    · exact ⟨ts, hend, List.suffix_refl ts, by omega, rfl⟩
    · rw [if_neg hend] at h
      cases hcmd : parseCommandTok m ts with
      | error e => rw [hcmd] at h; simp at h
      | ok p =>
        obtain ⟨cmd, ts1⟩ := p
        rw [hcmd] at h
        simp only [] at h
        obtain ⟨e1, e2, e3⟩ := parseCommandTok_spec m ts cmd ts1 hcmd
        cases hrest : parseCommandsTok m (if tokMatch ts1 TokenType.PIPE then ts1.tail else ts1) with
        | error e => rw [hrest] at h; simp at h
        | ok cmds2 =>
          by_cases hp : tokMatch ts1 TokenType.PIPE = true
          · rw [if_pos hp] at hrest
            obtain ⟨pt, ptail, hts1, hpty⟩ := tokMatch_spec ts1 TokenType.PIPE hp
            subst hts1
            simp only [List.tail_cons] at hrest
            obtain ⟨ts', f1, f2, f3, f4⟩ := ih ptail cmds2 hrest
            refine ⟨ts', f1, ?_, ?_, ?_⟩
            · exact f2.trans ((List.suffix_cons pt ptail).trans e3)
            · rw [countTy_cons_ne TokenType.OPEN_PAREN _ _ (by rw [hpty]; decide)] at e1
              rw [countTy_cons_ne TokenType.CLOSE_PAREN _ _ (by rw [hpty]; decide)] at e1
              omega
            · rw [countTy_cons_ne TokenType.EOF _ _ (by rw [hpty]; decide)] at e2
              omega
          · rw [if_neg hp] at hrest
            obtain ⟨ts', f1, f2, f3, f4⟩ := ih ts1 cmds2 hrest
            refine ⟨ts', f1, f2.trans e3, by omega, by omega⟩

theorem countTy_pos_of_mem (ty : TokenType) (t : Token) (ts : List Token)
    (hm : t ∈ ts) (hty : t.type = ty) : 0 < countTy ty ts := by
  have hf : t ∈ ts.filter (fun u => u.type == ty) :=
    List.mem_filter.mpr ⟨hm, by simp [hty]⟩
  exact List.length_pos.mpr (List.ne_nil_of_mem hf)

/-- **C8**: `parse` never throws — every input yields either a valid result
with no errors, or `isValid = false` with an empty command list and exactly
one error message.  A lexical error (in particular an unterminated quoted
literal) surfaces as that single message; and any token stream whose
`(` and `)` tokens are unbalanced (an unmatched parenthesis) makes the
parser fail with the same single-error shape. -/
theorem parse_never_throws_and_error_shape :
  (∀ input : JStr,
     ((parse input).isValid = true ∧ (parse input).errors = []) ∨
     ((parse input).isValid = false ∧ (parse input).commands = [] ∧
      ∃ m, (parse input).errors = [m])) ∧
  (∀ (input e : JStr), tokenize input = .error e →
     parse input = ⟨[], false, [e]⟩) ∧
  (∀ (input : JStr) (ts : List Token), tokenize input = .ok ts →
     countTy .OPEN_PAREN ts ≠ countTy .CLOSE_PAREN ts →
     (parse input).isValid = false ∧ (parse input).commands = [] ∧
     ∃ m, (parse input).errors = [m]) := by
  refine ⟨?_, ?_, ?_⟩
  · intro input
    cases htok : tokenize input with
    | error e =>
      right
      simp [parse, htok]
    | ok ts =>
      cases hp : parseCommandsTok (ts.length + 1) ts with
      | error e =>
        right
        simp [parse, htok, hp]
      | ok cmds =>
        left
        simp [parse, htok, hp]
  · intro input e htok
    simp [parse, htok]
  · intro input ts htok hne
    cases hp : parseCommandsTok (ts.length + 1) ts with
    | error e =>
      simp [parse, htok, hp]
    | ok cmds =>
      exfalso
      obtain ⟨ts', f1, f2, f3, f4⟩ := parseCommandsTok_spec (ts.length + 1) ts cmds hp
      obtain ⟨body, hts, hbody⟩ :=
        tokenizeLoop_structure ((jsTrim input).length + 1) (jsTrim input) [] ts
          (by simpa [tokenize] using htok)
      simp only [List.nil_append] at hts
      have heof : countTy .EOF ts = 1 := by
        rw [hts, countTy_append, hbody]
        decide
      cases hts' : ts' with
      | nil =>
        rw [hts'] at f3
        simp only [countTy_nil] at f3
        exact hne (by omega)
      | cons t tail =>
        rw [hts'] at f1 f2 f3
        have htE : t.type = .EOF := by simpa [tokAtEnd] using f1
        obtain ⟨pre, hpre⟩ := f2
        have hsum : countTy .EOF pre + countTy .EOF (t :: tail) = 1 := by
          rw [← countTy_append, hpre, heof]
        have hc1 : countTy .EOF (t :: tail) = countTy .EOF tail + 1 :=
          countTy_cons_eq _ _ _ (by simp [htE])
        have htail0 : countTy .EOF tail = 0 := by omega
        cases htl : tail with
        | nil =>
          rw [htl] at f3
          have ho : countTy .OPEN_PAREN [t] = 0 :=
            countTy_cons_ne _ _ _ (by rw [htE]; decide)
          have hc : countTy .CLOSE_PAREN [t] = 0 :=
            countTy_cons_ne _ _ _ (by rw [htE]; decide)
          rw [ho, hc] at f3
          exact hne (by omega)
        | cons u utail =>
          rw [htl] at hpre htail0
          have hlast1 : ts.getLast? = some eofTok := by
            rw [hts, List.getLast?_append_cons]
            rfl
          have hlast2 : ts.getLast? = (u :: utail).getLast? := by
            rw [← hpre, List.getLast?_append_cons, List.getLast?_cons_cons]
          have hsome : (u :: utail).getLast? = some eofTok := by
            rw [← hlast2, hlast1]
          obtain ⟨hne2, hg⟩ := List.mem_getLast?_eq_getLast (Option.mem_def.mpr hsome)
          have hmem : eofTok ∈ u :: utail := hg ▸ List.getLast_mem hne2
          have := countTy_pos_of_mem .EOF eofTok (u :: utail) hmem rfl
          omega

/-- Witness for C8: an unterminated quoted literal (lexical error) and an
unmatched `(` (token-level imbalance) both produce `isValid = false`, no
commands, and a single error message. -/
theorem parse_never_throws_and_error_shape_witness :
  tokenize (strL "p | propIncludes('a") = .error (strL "Unterminated string") ∧
  parse (strL "p | propIncludes('a") = ⟨[], false, [strL "Unterminated string"]⟩ ∧
  (parse (strL "f(")).isValid = false ∧
  (parse (strL "f(")).commands = [] ∧
  (parse (strL "f(")).errors = [strL "Expected close paren to close function call"] := by
  refine ⟨rfl, ?_, ?_, ?_, rfl⟩
  · exact parse_never_throws_and_error_shape.2.1 (strL "p | propIncludes('a")
      (strL "Unterminated string") rfl
  · exact (parse_never_throws_and_error_shape.2.2 (strL "f(")
      [⟨.FUNCTION_NAME, strL "f"⟩, ⟨.OPEN_PAREN, strL "("⟩, ⟨.EOF, []⟩] rfl (by decide)).1
  · exact ((parse_never_throws_and_error_shape.2.2 (strL "f(")
      [⟨.FUNCTION_NAME, strL "f"⟩, ⟨.OPEN_PAREN, strL "("⟩, ⟨.EOF, []⟩] rfl (by decide)).2).1

/-! ## C1: first-token-is-selector classification -/

theorem bare_head_ne (c x : Char) (hc : (c.isAlpha || c == '_') = true)
    (hx : (x.isAlpha || x == '_') = false) : (c == x) = false := by
  cases hcx : (c == x) with
  | false => rfl
  | true =>
    have hcx2 : c = x := by simpa using hcx
    rw [hcx2] at hc
    rw [hc] at hx
    exact Bool.noConfusion hx

theorem word_tail_ne (d x : Char) (hd : isWordTailChar d = true)
    (hx : isWordTailChar x = false) : (d == x) = false := by
  cases hdx : (d == x) with
  | false => rfl
  | true =>
    have hdx2 : d = x := by simpa using hdx
    rw [hdx2] at hd
    rw [hd] at hx
    exact Bool.noConfusion hx

theorem bare_head_props (c : Char) (hc : (c.isAlpha || c == '_') = true) :
    isWsChar c = false ∧ isDigitChar c = false ∧ (c == '-') = false ∧
    (c == '|') = false ∧ (c == '(') = false ∧ (c == ')') = false ∧
    (c == '[') = false ∧ (c == ']') = false ∧ (c == ',') = false ∧
    (c == '"') = false ∧ (c == '\'') = false ∧
    isWordTailChar c = true ∧ isCssSpecialChar c = false := by
  have hws : isWsChar c = false := by
    simp [isWsChar, bare_head_ne c ' ' hc (by decide), bare_head_ne c '\t' hc (by decide),
      bare_head_ne c '\n' hc (by decide), bare_head_ne c '\r' hc (by decide),
      bare_head_ne c '\x0b' hc (by decide), bare_head_ne c '\x0c' hc (by decide)]
  have hc' : c.isAlpha = true ∨ c = '_' := by simpa using hc
  have hdg : isDigitChar c = false := by
    rcases hc' with ha | hu
    · simp only [isDigitChar]
      simp [Char.isDigit, Char.isAlpha, Char.isUpper, Char.isLower, UInt32.le_def,
        BitVec.le_def] at ha ⊢
      omega
    · have hc2 : c = '_' := by simpa using hu
      rw [hc2]
      decide
  have htail : isWordTailChar c = true := by
    rcases hc' with ha | hu
    · simp [isWordTailChar, Char.isAlphanum, ha]
    · rw [hu]
      decide
  have hcss : isCssSpecialChar c = false := by
    simp [isCssSpecialChar, hws, bare_head_ne c '.' hc (by decide),
      bare_head_ne c '#' hc (by decide), bare_head_ne c '>' hc (by decide),
      bare_head_ne c '+' hc (by decide), bare_head_ne c '~' hc (by decide),
      bare_head_ne c '[' hc (by decide), bare_head_ne c ']' hc (by decide),
      bare_head_ne c ':' hc (by decide)]
  exact ⟨hws, hdg, bare_head_ne c '-' hc (by decide), bare_head_ne c '|' hc (by decide),
    bare_head_ne c '(' hc (by decide), bare_head_ne c ')' hc (by decide),
    bare_head_ne c '[' hc (by decide), bare_head_ne c ']' hc (by decide),
    bare_head_ne c ',' hc (by decide), bare_head_ne c '"' hc (by decide),
    bare_head_ne c '\'' hc (by decide), htail, hcss⟩

theorem word_tail_props (d : Char) (hd : isWordTailChar d = true) :
    isWsChar d = false ∧ (d == '|') = false ∧ isCssSpecialChar d = false := by
  have hws : isWsChar d = false := by
    simp [isWsChar, word_tail_ne d ' ' hd (by decide), word_tail_ne d '\t' hd (by decide),
      word_tail_ne d '\n' hd (by decide), word_tail_ne d '\r' hd (by decide),
      word_tail_ne d '\x0b' hd (by decide), word_tail_ne d '\x0c' hd (by decide)]
  have hcss : isCssSpecialChar d = false := by
    simp [isCssSpecialChar, hws, word_tail_ne d '.' hd (by decide),
      word_tail_ne d '#' hd (by decide), word_tail_ne d '>' hd (by decide),
      word_tail_ne d '+' hd (by decide), word_tail_ne d '~' hd (by decide),
      word_tail_ne d '[' hd (by decide), word_tail_ne d ']' hd (by decide),
      word_tail_ne d ':' hd (by decide)]
  exact ⟨hws, word_tail_ne d '|' hd (by decide), hcss⟩

theorem bare_word_shape (w : JStr) (hw : isBareWord w = true) :
    ∃ c cs, w = c :: cs ∧ (c.isAlpha || c == '_') = true ∧
      ∀ d ∈ cs, isWordTailChar d = true := by
  cases w with
  | nil => simp [isBareWord] at hw
  | cons c cs =>
    simp only [isBareWord, Bool.and_eq_true, List.all_eq_true] at hw
    exact ⟨c, cs, rfl, hw.1, hw.2⟩

theorem takeWhile_append_all (p : Char → Bool) (l r : JStr)
    (hl : ∀ d ∈ l, p d = true) :
    (l ++ r).takeWhile p = l ++ r.takeWhile p := by
  induction l with
  | nil => simp
  | cons c cs ih =>
    simp only [List.cons_append, List.takeWhile_cons, hl c (by simp)]
    simp [ih (fun d hd => hl d (by simp [hd]))]

theorem dropWhile_append_all (p : Char → Bool) (l r : JStr)
    (hl : ∀ d ∈ l, p d = true) :
    (l ++ r).dropWhile p = r.dropWhile p := by
  induction l with
  | nil => simp
  | cons c cs ih =>
    simp only [List.cons_append, List.dropWhile_cons, hl c (by simp)]
    simp [ih (fun d hd => hl d (by simp [hd]))]

theorem jsTrim_eq_self (s : JStr) (h : ∀ d ∈ s, isWsChar d = false) : jsTrim s = s := by
  have h1 : s.dropWhile isWsChar = s := by
    cases s with
    | nil => rfl
    | cons c cs => simp [List.dropWhile_cons, h c (by simp)]
  have h2 : s.reverse.dropWhile isWsChar = s.reverse := by
    cases hr : s.reverse with
    | nil => rfl
    | cons c cs =>
      have hcmem : c ∈ s := by
        have : c ∈ s.reverse := by rw [hr]; exact List.mem_cons_self c cs
        simpa using this
      rw [← hr]
      cases hr2 : s.reverse with
      | nil => rfl
      | cons c2 cs2 =>
        have hc2mem : c2 ∈ s := by
          have : c2 ∈ s.reverse := by rw [hr2]; exact List.mem_cons_self c2 cs2
          simpa using this
        simp [List.dropWhile_cons, h c2 hc2mem]
  simp only [jsTrim, h1, h2, List.reverse_reverse]

/-- For a bare word, `looksLikeCssSelector` is exactly "no token emitted
yet": classification depends only on the position, not on the word. -/
theorem looksLike_bareword (w : JStr) (hw : isBareWord w = true) :
    ∀ ts : List Token, looksLikeCssSelector w ts = ts.isEmpty := by
  intro ts
  obtain ⟨c, cs, rfl, hc, hcs⟩ := bare_word_shape w hw
  obtain ⟨hws, _, _, hpipe, _, _, _, _, _, _, _, htailc, hcssc⟩ := bare_head_props c hc
  have hnp : ∀ d ∈ c :: cs, (!(d == '|')) = true := by
    intro d hd
    rcases List.mem_cons.mp hd with rfl | hd
    · simp [hpipe]
    · simp [(word_tail_props d (hcs d hd)).2.1]
  have htw : (c :: cs).takeWhile (fun d => !(d == '|')) = c :: cs := by
    have := takeWhile_append_all (fun d => !(d == '|')) (c :: cs) [] hnp
    simpa using this
  have hnws : ∀ d ∈ c :: cs, isWsChar d = false := by
    intro d hd
    rcases List.mem_cons.mp hd with rfl | hd
    · exact hws
    · exact (word_tail_props d (hcs d hd)).1
  have hseg : jsTrim ((c :: cs).takeWhile (fun d => !(d == '|'))) = c :: cs := by
    rw [htw]
    exact jsTrim_eq_self _ hnws
  have hnocss : (c :: cs).any isCssSpecialChar = false := by
    simp only [List.any_eq_false]
    intro d hd
    rcases List.mem_cons.mp hd with rfl | hd
    · simp [hcssc]
    · simp [(word_tail_props d (hcs d hd)).2.2]
  simp [looksLikeCssSelector, hseg, hnocss, hw]

theorem tokenizeLoop_eof_step (n : Nat) (ts : List Token) :
    tokenizeLoop (n + 1) [] ts = .ok (ts ++ [⟨.EOF, []⟩]) := by
  simp [tokenizeLoop]

theorem tokenizeLoop_pipe_step (n : Nat) (tail : JStr) (ts : List Token) :
    tokenizeLoop (n + 1) ('|' :: tail) ts =
      tokenizeLoop n tail (ts ++ [⟨.PIPE, ['|']⟩]) := by
  have h0 : isWsChar '|' = false := by decide
  have hdw : List.dropWhile isWsChar ('|' :: tail) = '|' :: tail := by
    simp [List.dropWhile_cons, h0]
  simp only [tokenizeLoop, hdw]
  rw [if_pos (by decide)]

/-- One scanner step on a bare word at the start of the remaining input,
followed by nothing or by a pipe: the word is emitted as a CSS selector
when no token has been emitted yet and as a property otherwise, and in both
cases scanning resumes at the pipe (or the end). -/
theorem tokenizeLoop_bareword_step (n : Nat) (c : Char) (cs rest : JStr) (ts : List Token)
    (hc : (c.isAlpha || c == '_') = true)
    (hcs : ∀ d ∈ cs, isWordTailChar d = true)
    (hrest : rest = [] ∨ ∃ tail, rest = '|' :: tail) :
    tokenizeLoop (n + 1) (c :: (cs ++ rest)) ts =
      tokenizeLoop n rest
        (ts ++ [if ts.isEmpty then (⟨.CSS_SELECTOR, c :: cs⟩ : Token)
                else ⟨.PROPERTY, c :: cs⟩]) := by
  obtain ⟨hws, hdg, hmn, hpipe, hop, hcp, hob, hcb, hcm, hq1, hq2, htailc, hcssc⟩ :=
    bare_head_props c hc
  have hbare : isBareWord (c :: cs) = true := by
    simp only [isBareWord, Bool.and_eq_true, List.all_eq_true]
    exact ⟨hc, hcs⟩
  have hnp : ∀ d ∈ c :: cs, (!(d == '|')) = true := by
    intro d hd
    rcases List.mem_cons.mp hd with rfl | hd
    · simp [hpipe]
    · simp [(word_tail_props d (hcs d hd)).2.1]
  have hnws : ∀ d ∈ c :: cs, isWsChar d = false := by
    intro d hd
    rcases List.mem_cons.mp hd with rfl | hd
    · exact hws
    · exact (word_tail_props d (hcs d hd)).1
  have hrestWs : rest.dropWhile isWsChar = rest := by
    rcases hrest with rfl | ⟨tail, rfl⟩
    · rfl
    · have h0 : isWsChar '|' = false := by decide
      simp [List.dropWhile_cons, h0]
  have htwWord : (cs ++ rest).takeWhile isWordTailChar = cs := by
    rw [takeWhile_append_all _ cs rest hcs]
    rcases hrest with rfl | ⟨tail, rfl⟩
    · simp
    · have h1 : isWordTailChar '|' = false := by decide
      simp [List.takeWhile_cons, h1]
  have hdwWord : (cs ++ rest).dropWhile isWordTailChar = rest := by
    rw [dropWhile_append_all _ cs rest hcs]
    rcases hrest with rfl | ⟨tail, rfl⟩
    · rfl
    · have h1 : isWordTailChar '|' = false := by decide
      simp [List.dropWhile_cons, h1]
  have htwPipe : (c :: (cs ++ rest)).takeWhile (fun d => !(d == '|')) = c :: cs := by
    have h1 : c :: (cs ++ rest) = (c :: cs) ++ rest := by simp
    rw [h1, takeWhile_append_all _ (c :: cs) rest hnp]
    rcases hrest with rfl | ⟨tail, rfl⟩
    · simp
    · have h2 : (!(('|' : Char) == '|')) = false := by decide
      simp [List.takeWhile_cons, h2]
  have hdwPipe : (c :: (cs ++ rest)).dropWhile (fun d => !(d == '|')) = rest := by
    have h1 : c :: (cs ++ rest) = (c :: cs) ++ rest := by simp
    rw [h1, dropWhile_append_all _ (c :: cs) rest hnp]
    rcases hrest with rfl | ⟨tail, rfl⟩
    · rfl
    · have h2 : (!(('|' : Char) == '|')) = false := by decide
      simp [List.dropWhile_cons, h2]
  have hsegTrim : jsTrim (c :: cs) = c :: cs := jsTrim_eq_self _ hnws
  have hidentP : (c.isAlpha || c == '_' || c == '-' || c == '.' || c == '#') = true := by
    rcases (by simpa using hc : c.isAlpha = true ∨ c = '_') with ha | rfl
    · simp [ha]
    · decide
  have hnocss : (c :: cs).any isCssSpecialChar = false := by
    simp only [List.any_eq_false]
    intro d hd
    rcases List.mem_cons.mp hd with rfl | hd
    · simp [hcssc]
    · simp [(word_tail_props d (hcs d hd)).2.2]
  have hlooks : looksLikeCssSelector (c :: (cs ++ rest)) ts = ts.isEmpty := by
    simp only [looksLikeCssSelector, htwPipe, hsegTrim]
    simp [hnocss, hbare]
  have hti : tokenizeIdentifier (c :: (cs ++ rest)) ts =
      ((if ts.isEmpty then (⟨.CSS_SELECTOR, c :: cs⟩ : Token) else ⟨.PROPERTY, c :: cs⟩),
       rest) := by
    simp only [tokenizeIdentifier, htwWord, hdwWord, hrestWs]
    rw [if_neg (by rcases hrest with rfl | ⟨tail, rfl⟩ <;> simp)]
    rw [hlooks]
    cases hE : ts.isEmpty with
    | true =>
      rw [if_pos rfl]
      rw [htwPipe, hsegTrim, hdwPipe]
      simp
    | false =>
      rw [if_neg (by simp)]
      simp
  have hdw0 : (c :: (cs ++ rest)).dropWhile isWsChar = c :: (cs ++ rest) := by
    simp [List.dropWhile_cons, hws]
  simp only [tokenizeLoop, hdw0]
  rw [if_neg (by simp [hpipe]), if_neg (by simp [hop]), if_neg (by simp [hcp]),
      if_neg (by simp [hob]), if_neg (by simp [hcb]), if_neg (by simp [hcm]),
      if_neg (by simp [hq1, hq2]), if_neg (by simp [hdg, hmn]), if_pos hidentP,
      hti]


/-- C1: for every input whose first pipeline segment is a single bare word,
the tokenizer classifies that segment as a CSS selector token; the same
bare word occurring as a later segment (after a pipe) is classified as a
property token; and on a bare-word segment `looksLikeCssSelector` depends
only on whether it is the first token emitted (`tokens.isEmpty`), not on
the word itself. -/
theorem tokenizer_first_token_is_selector (u w : JStr)
    (hu : isBareWord u = true) (hw : isBareWord w = true) :
    tokenize u = .ok [⟨.CSS_SELECTOR, u⟩, ⟨.EOF, []⟩] ∧
    tokenize (u ++ '|' :: w) =
      .ok [⟨.CSS_SELECTOR, u⟩, ⟨.PIPE, ['|']⟩, ⟨.PROPERTY, w⟩, ⟨.EOF, []⟩] ∧
    ∀ ts : List Token, looksLikeCssSelector w ts = ts.isEmpty := by
  obtain ⟨c, cs, rfl, hc, hcs⟩ := bare_word_shape u hu
  obtain ⟨c2, cs2, rfl, hc2, hcs2⟩ := bare_word_shape w hw
  have hnwsu : ∀ d ∈ c :: cs, isWsChar d = false := by
    intro d hd
    rcases List.mem_cons.mp hd with rfl | hd
    · exact (bare_head_props d hc).1
    · exact (word_tail_props d (hcs d hd)).1
  have hnwsw : ∀ d ∈ c2 :: cs2, isWsChar d = false := by
    intro d hd
    rcases List.mem_cons.mp hd with rfl | hd
    · exact (bare_head_props d hc2).1
    · exact (word_tail_props d (hcs2 d hd)).1
  have hnws2 : ∀ d ∈ (c :: cs) ++ '|' :: (c2 :: cs2), isWsChar d = false := by
    intro d hd
    rcases List.mem_append.mp hd with hd | hd
    · exact hnwsu d hd
    · rcases List.mem_cons.mp hd with rfl | hd
      · decide
      · exact hnwsw d hd
  refine ⟨?_, ?_, looksLike_bareword _ hw⟩
  · show tokenizeLoop ((jsTrim (c :: cs)).length + 1) (jsTrim (c :: cs)) [] = _
    rw [jsTrim_eq_self _ hnwsu]
    conv_lhs => rw [show c :: cs = c :: (cs ++ []) from by simp]
    simp only [List.length_cons]
    refine ((tokenizeLoop_bareword_step ((cs ++ []).length + 1) c cs [] []
      hc hcs (Or.inl rfl)).trans ?_)
    refine ((tokenizeLoop_eof_step _ _).trans ?_)
    simp
  · show tokenizeLoop ((jsTrim ((c :: cs) ++ '|' :: (c2 :: cs2))).length + 1)
        (jsTrim ((c :: cs) ++ '|' :: (c2 :: cs2))) [] = _
    rw [jsTrim_eq_self _ hnws2]
    simp only [List.cons_append]
    have hfuel : (c :: (cs ++ '|' :: (c2 :: cs2))).length + 1 =
        cs.length + cs2.length + 1 + 1 + 1 + 1 := by
      simp only [List.length_cons, List.length_append]
      omega
    rw [hfuel]
    refine ((tokenizeLoop_bareword_step (cs.length + cs2.length + 1 + 1 + 1) c cs
      ('|' :: (c2 :: cs2)) [] hc hcs (Or.inr ⟨c2 :: cs2, rfl⟩)).trans ?_)
    refine ((tokenizeLoop_pipe_step (cs.length + cs2.length + 1 + 1) (c2 :: cs2) _).trans ?_)
    conv_lhs => rw [show c2 :: cs2 = c2 :: (cs2 ++ []) from by simp]
    refine ((tokenizeLoop_bareword_step (cs.length + cs2.length + 1) c2 cs2 [] _
      hc2 hcs2 (Or.inl rfl)).trans ?_)
    refine ((tokenizeLoop_eof_step _ _).trans ?_)
    simp

/-- Witness for C1 at the spec examples: `"textContent"` alone tokenizes as
a CSS selector, while `"div|textContent"` tokenizes as a CSS selector, a
pipe and a property. -/
theorem tokenizer_first_token_is_selector_witness :
    isBareWord (strL "div") = true ∧ isBareWord (strL "textContent") = true ∧
    tokenize (strL "textContent") =
      .ok [⟨.CSS_SELECTOR, strL "textContent"⟩, ⟨.EOF, []⟩] ∧
    tokenize (strL "div" ++ '|' :: strL "textContent") =
      .ok [⟨.CSS_SELECTOR, strL "div"⟩, ⟨.PIPE, ['|']⟩,
           ⟨.PROPERTY, strL "textContent"⟩, ⟨.EOF, []⟩] :=
  ⟨by decide, by decide,
   (tokenizer_first_token_is_selector (strL "textContent") (strL "textContent")
     (by decide) (by decide)).1,
   (tokenizer_first_token_is_selector (strL "div") (strL "textContent")
     (by decide) (by decide)).2.1⟩

end SS
